import Mathlib

/-!
# encryption-at-rest: envelope encryption of documents

A shallow embedding of `pkg/cryptoutils/aes.go`, `repository/user/user.go` and
`repository/document/document.go`.

* Go byte slices are lists of bytes; a Go `string` used as a credential is its byte
  sequence (`[]byte(s)` is the identity on it).
* A call of a function of the repository with results `(v, err)` is a `Res`: `ret v none`
  for `(v, nil)`, `ret v (some e)` for a non-nil error with message `e` (`%w` wrapping is
  concatenation of messages), and `panic` for a run-time panic.
* The Go standard library (AES-GCM, SHA-256, bcrypt, RSA, PKCS#1) is a parameter `Lib`,
  its calls returning `Except Error _`; the facts about it that a proof uses are stated
  as hypotheses on that parameter.
* The PostgreSQL store is an in-memory relational model `DB`; a failure of the connection
  during a call is an explicit input of the operation making the call. The statement
  inserting the grants reaches the store as the text `New` assembles, and the store reads
  the tuples off that text.
* `crypto/rand.Reader` is an explicit tape of bytes, consumed by the calls that read it.
-/

namespace EncryptionAtRest

/-! ## Values -/

abbrev Byte := Fin 256

abbrev Bytes := List Byte

/-- A Go `error`, identified with its message. -/
abbrev Error := String

/-- Outcome of a call of a Go function with results `(α, error)`. -/
inductive Res (α : Type) where
  | ret (v : α) (err : Option Error) : Res α
  | panic (msg : String) : Res α
deriving DecidableEq, Repr

/-- The state of `crypto/rand.Reader`: the bytes it will still deliver. -/
abbrev Entropy := List Byte

/-- `io.ReadFull(rand.Reader, buf)` with `len(buf) = n`: exactly `n` bytes or an error. -/
def readFull (ent : Entropy) (n : Nat) : Except Error (Bytes × Entropy) :=
  if n ≤ ent.length then .ok (ent.take n, ent.drop n) else .error "unexpected EOF"

/-- `make([]byte, n)`: a zeroed byte slice. -/
def makeBytes (n : Nat) : Bytes := List.replicate n 0

/-- The block cipher `aes.NewCipher` builds: its key and its `BlockSize()`. -/
structure AESCipher where
  key : Bytes
  blockSize : Nat
deriving DecidableEq, Repr

/-- A value of the interface type `cipher.Block`; `none` is the nil interface. -/
abbrev Block := Option AESCipher

/-- `rsa.PublicKey`. -/
structure PublicKey where
  N : Nat
  E : Nat
deriving DecidableEq, Repr

/-- `rsa.PrivateKey`. -/
structure PrivateKey where
  pub : PublicKey
  D : Nat
  primes : List Nat
deriving DecidableEq, Repr

/-- The parts of the Go standard library and of `golang.org/x/crypto` the repository calls. -/
structure Lib where
  /-- `cipher.AEAD.Seal(nil, nonce, plaintext, nil)` of the GCM over the AES key. -/
  gcmSeal : Bytes → Bytes → Bytes → Bytes
  /-- `cipher.AEAD.Open(nil, nonce, ciphertext, nil)`; `none` is the authentication error. -/
  gcmOpen : Bytes → Bytes → Bytes → Option Bytes
  /-- `sha256.New()`, `Write`, `Sum(nil)`. -/
  sha256 : Bytes → Bytes
  /-- `bcrypt.GenerateFromPassword(password, cost)`; the salt is read from the entropy. -/
  bcryptGenerate : Entropy → Bytes → Nat → Except Error (Bytes × Entropy)
  /-- `bcrypt.CompareHashAndPassword(hash, password) == nil`. -/
  bcryptCompare : Bytes → Bytes → Bool
  /-- `rsa.GenerateKey(rand.Reader, bits)`. -/
  rsaGenerateKey : Entropy → Nat → Except Error (PrivateKey × Entropy)
  marshalPKCS1PublicKey : PublicKey → Bytes
  marshalPKCS1PrivateKey : PrivateKey → Bytes
  parsePKCS1PublicKey : Bytes → Except Error PublicKey
  parsePKCS1PrivateKey : Bytes → Except Error PrivateKey
  /-- `rsa.EncryptOAEP(sha256.New(), rand.Reader, pub, msg, nil)`. -/
  encryptOAEP : Entropy → PublicKey → Bytes → Except Error (Bytes × Entropy)
  /-- `rsa.DecryptOAEP(sha256.New(), rand.Reader, priv, ciphertext, nil)`. -/
  decryptOAEP : PrivateKey → Bytes → Except Error Bytes

/-- The message of a nil dereference panic. -/
def nilDereference : String := "runtime error: invalid memory address or nil pointer dereference"

/-! ## pkg/cryptoutils/aes.go -/

/-- `aes.NewCipher(key)`: a key of 16, 24 or 32 bytes gives a block of block size 16, any
other length is `aes.KeySizeError`. -/
def aesNewCipher (key : Bytes) : Except Error AESCipher :=
  if key.length = 16 ∨ key.length = 24 ∨ key.length = 32 then .ok ⟨key, 16⟩
  else .error ("crypto/aes: invalid key size " ++ toString key.length)

/-- `cipher.NewGCM(blk)`: the AEAD of a 128-bit block cipher, given by the key of the block.
Calling `BlockSize()` on the nil interface panics. -/
def newGCM (blk : Block) : Res (Option Bytes) :=
  match blk with
  | none => .panic nilDereference
  | some c =>
    if c.blockSize = 16 then .ret (some c.key) none
    else .ret none (some "cipher: NewGCM requires 128-bit block cipher")

/-- `aesGCM.NonceSize()` of the standard GCM. -/
def nonceSize : Nat := 12

/-- `aesGCM.Overhead()` of the standard GCM: the length of the tag. -/
def tagSize : Nat := 16

def RandomKey (ent : Entropy) : Res (Bytes × Block) × Entropy :=
  match readFull ent 32 with
  | .error e => (.ret ([], none) (some ("Couldn't generate new key, " ++ e)), ent)
  | .ok (keyBytes, ent1) =>
    match aesNewCipher keyBytes with
    | .error e => (.ret ([], none) (some ("Couldn't generate cipher, " ++ e)), ent1)
    | .ok keyAESBlock => (.ret (keyBytes, some keyAESBlock) none, ent1)

/-- `EncryptWithBlock(blk, data)`. `nonce` is `make([]byte, NonceSize())`; `Seal(nonce, nonce,
data, nil)` appends the sealed data to its first argument. -/
def EncryptWithBlock (lib : Lib) (blk : Block) (data : Bytes) : Res Bytes :=
  match newGCM blk with
  | .panic m => .panic m
  | .ret _ (some e) => .ret [] (some e)
  | .ret none none => .panic nilDereference
  | .ret (some aesGCM) none =>
    let nonce := makeBytes nonceSize
    let ciphertext := nonce ++ lib.gcmSeal aesGCM nonce data
    .ret ciphertext none

/-- `DecryptWithBlock(blk, data)`. The slice expressions `data[:nonceSize]`,
`data[nonceSize:]` panic when `len(data) < nonceSize`. -/
def DecryptWithBlock (lib : Lib) (blk : Block) (data : Bytes) : Res Bytes :=
  match newGCM blk with
  | .panic m => .panic m
  | .ret _ (some e) => .ret [] (some e)
  | .ret none none => .panic nilDereference
  | .ret (some aesGCM) none =>
    if data.length < nonceSize then
      .panic "runtime error: slice bounds out of range"
    else
      let nonce := data.take nonceSize
      let ciphertext := data.drop nonceSize
      match lib.gcmOpen aesGCM nonce ciphertext with
      | none => .ret [] (some "cipher: message authentication failed")
      | some plaintext => .ret plaintext none

def AESDecrypt (lib : Lib) (key data : Bytes) : Res Bytes :=
  match aesNewCipher key with
  | .error e => .ret [] (some e)
  | .ok blk => DecryptWithBlock lib (some blk) data

/-! ## The store -/

/-- A row of `users`. -/
structure UserRow where
  id : Int
  name : Bytes
  password : Bytes
  public_key : Bytes
  private_key : Bytes
  private_key_recovery : Bytes
deriving DecidableEq, Repr

/-- A row of `documents`. -/
structure DocumentRow where
  id : Int
  contents : Bytes
deriving DecidableEq, Repr

/-- A row of `users_documents`. -/
structure GrantRow where
  document_id : Int
  public_key : Bytes
  document_key : Bytes
deriving DecidableEq, Repr

/-- Modelled from the spec: the tables of the store, whose declarations are not among the
source files. Accounts, Documents and DocumentKeyGrants of the persisted layout, with the
columns the statements of the source name, and the sequences the identifiers are assigned
from. -/
structure DB where
  users : List UserRow
  documents : List DocumentRow
  users_documents : List GrantRow
  usersSeq : Int
  documentsSeq : Int
deriving DecidableEq, Repr

/-- `sql.ErrNoRows`. -/
def ErrNoRows : Error := "sql: no rows in result set"

/-- The error of the store on a second row with a key that must be unique. -/
def uniqueViolation (constraint : String) : Error :=
  "pq: duplicate key value violates unique constraint \"" ++ constraint ++ "\""

/-- A statement argument (`interface{}`): nil, an `int64` or a `[]byte`. -/
inductive Arg where
  | null : Arg
  | int (i : Int) : Arg
  | bytes (b : Bytes) : Arg
deriving DecidableEq, Repr

/-- Modelled from the spec: `insert into users (name, "password", public_key, private_key,
private_key_recovery) values ($1, $2, $3, $4, $5) returning id;` on a table whose username
is unique and whose public key is unique (it is the lookup key of the grants). `fault` is a
failure of the connection during the call. -/
def insertUser (fault : Option Error) (db : DB)
    (name password public_key private_key private_key_recovery : Bytes) :
    Except Error (Int × DB) :=
  match fault with
  | some e => .error e
  | none =>
    if db.users.any (fun r => r.name = name) then .error (uniqueViolation "users_name_key")
    else if db.users.any (fun r => r.public_key = public_key) then
      .error (uniqueViolation "users_public_key_key")
    else if db.users.any (fun r => r.id = db.usersSeq) then
      .error (uniqueViolation "users_pkey")
    else
      .ok (db.usersSeq,
        { db with
          users := db.users ++
            [⟨db.usersSeq, name, password, public_key, private_key, private_key_recovery⟩]
          usersSeq := db.usersSeq + 1 })

/-- `select u."password", u.public_key, u.private_key from users u where u."name" = $1;` read
with `QueryRowContext(...).Scan`: the first row, or `sql.ErrNoRows`. -/
def selectLogin (fault : Option Error) (db : DB) (name : Bytes) :
    Except Error (Bytes × Bytes × Bytes) :=
  match fault with
  | some e => .error e
  | none =>
    match db.users.find? (fun r => r.name = name) with
    | none => .error ErrNoRows
    | some r => .ok (r.password, r.public_key, r.private_key)

/-- `select u.public_key from users u;` read with `QueryContext`. -/
def selectPublicKeys (fault : Option Error) (db : DB) : Except Error (List Bytes) :=
  match fault with
  | some e => .error e
  | none => .ok (db.users.map (fun r => r.public_key))

/-- `db.BeginTx(ctx, nil)`: the transaction works on a copy of the store. -/
def beginTx (fault : Option Error) (db : DB) : Except Error DB :=
  match fault with
  | some e => .error e
  | none => .ok db

/-- `tx.Commit()`: the copy of the transaction becomes the store. -/
def commitTx (fault : Option Error) (tx : DB) : Except Error DB :=
  match fault with
  | some e => .error e
  | none => .ok tx

/-- Modelled from the spec: `insert into documents(contents) values($1) returning id;`, the
identifier being assigned by the store from its sequence and unique in the table. -/
def insertDocument (fault : Option Error) (tx : DB) (contents : Bytes) :
    Except Error (Int × DB) :=
  match fault with
  | some e => .error e
  | none =>
    if tx.documents.any (fun r => r.id = tx.documentsSeq) then
      .error (uniqueViolation "documents_pkey")
    else
      .ok (tx.documentsSeq,
        { tx with
          documents := tx.documents ++ [⟨tx.documentsSeq, contents⟩]
          documentsSeq := tx.documentsSeq + 1 })

/-- One parenthesised tuple after `values`: the numbers of its three placeholders. -/
structure ValueTuple where
  a : Nat
  b : Nat
  c : Nat
deriving DecidableEq, Repr

/-- The text of a tuple, as `fmt.Sprintf("($%d, $%d, $%d)", a, b, c)` writes it. -/
def ValueTuple.render (t : ValueTuple) : String :=
  "($" ++ toString t.a ++ ", $" ++ toString t.b ++ ", $" ++ toString t.c ++ ")"

/-- The argument a placeholder `$k` stands for. -/
def placeholder (args : List Arg) (k : Nat) : Option Arg :=
  if k = 0 then none else args.get? (k - 1)

/-- The row a tuple of placeholders denotes, when the three arguments exist and have the
types of the columns. -/
def bindTuple (args : List Arg) (t : ValueTuple) : Option GrantRow :=
  match placeholder args t.a, placeholder args t.b, placeholder args t.c with
  | some (.int d), some (.bytes k), some (.bytes w) => some ⟨d, k, w⟩
  | _, _, _ => none

/-- The rows of all tuples, or `none` when one of them does not denote a row. -/
def bindTuples (args : List Arg) : List ValueTuple → Option (List GrantRow)
  | [] => some []
  | t :: ts =>
    match bindTuple args t, bindTuples args ts with
    | some r, some rs => some (r :: rs)
    | _, _ => none

/-- Appends the rows one by one, refusing a second row for a pair of document and public
key. -/
def insertGrantRows (table : List GrantRow) : List GrantRow → Except Error (List GrantRow)
  | [] => .ok table
  | r :: rs =>
    if table.any (fun g => g.document_id = r.document_id ∧ g.public_key = r.public_key) then
      .error (uniqueViolation "users_documents_document_id_public_key_key")
    else insertGrantRows (table ++ [r]) rs

/-- The text every statement inserting grants starts with. -/
def grantsStatementHead : String :=
  "insert into users_documents(document_id, public_key, document_key) values "

/-- The rest of a text after the characters it is expected to start with. -/
def expect : List Char → List Char → Option (List Char)
  | [], cs => some cs
  | _ :: _, [] => none
  | e :: es, c :: cs => if e = c then expect es cs else none

/-- The decimal number a text starts with, and the rest of the text. -/
def readNumber (cs : List Char) : Option (Nat × List Char) :=
  let digits := cs.takeWhile Char.isDigit
  if digits.isEmpty then none
  else some (digits.foldl (fun n c => 10 * n + (c.toNat - 48)) 0, cs.dropWhile Char.isDigit)

/-- The tuple `($a, $b, $c)` a text starts with, and the rest of the text. -/
def readTuple (cs : List Char) : Option (ValueTuple × List Char) :=
  (expect "($".data cs).bind fun r1 =>
  (readNumber r1).bind fun n1 =>
  (expect ", $".data n1.2).bind fun r2 =>
  (readNumber r2).bind fun n2 =>
  (expect ", $".data n2.2).bind fun r3 =>
  (readNumber r3).bind fun n3 =>
  (expect ")".data n3.2).bind fun r4 => some (⟨n1.1, n2.1, n3.1⟩, r4)

/-- One or more tuples separated by `,` and ended by `;`, which ends the text; the first
argument bounds the number of tuples. -/
def readTuples : Nat → List Char → Option (List ValueTuple)
  | 0, _ => none
  | fuel + 1, cs =>
    match readTuple cs with
    | none => none
    | some (t, rest) =>
      if rest = [';'] then some [t]
      else
        match rest with
        | [] => none
        | c :: rest1 =>
          if c = ',' then (readTuples fuel rest1).map (fun ts => t :: ts) else none

/-- The tuples of a statement inserting grants, as the store reads them off its text;
`none` for a text that is not such a statement with at least one tuple. -/
def parseInsertGrants (query : String) : Option (List ValueTuple) :=
  match expect grantsStatementHead.data query.data with
  | none => none
  | some rest => readTuples rest.length rest

/-- Modelled from the spec: `tx.ExecContext(ctx, query, args...)` for a statement
`insert into users_documents(document_id, public_key, document_key) values <tuples>;` on
a table unique on `(document_id, public_key)`. The store reads the tuples off the text; a
text without a tuple after `values`, the one unreadable text `New` assembles, is a syntax
error at the `;`. -/
def insertGrants (fault : Option Error) (tx : DB) (query : String)
    (args : List Arg) : Except Error DB :=
  match fault with
  | some e => .error e
  | none =>
    match parseInsertGrants query with
    | none => .error "pq: syntax error at or near \";\""
    | some valueParts =>
      match bindTuples args valueParts with
      | none => .error "pq: could not bind the parameters of the statement"
      | some rows =>
        match insertGrantRows tx.users_documents rows with
        | .error e => .error e
        | .ok table => .ok { tx with users_documents := table }

/-- `select ud.document_key, d.contents from users_documents ud left outer join documents d
on ud.document_id = d.id where ud.public_key = $1 and d.id = $2;` read with
`QueryRowContext(...).Scan`: the first row, or `sql.ErrNoRows`. A grant without a document
joins with nulls and does not pass `d.id = $2`. -/
def selectGrant (fault : Option Error) (db : DB) (public_key : Bytes) (documentID : Int) :
    Except Error (Bytes × Bytes) :=
  match fault with
  | some e => .error e
  | none =>
    let joined := db.users_documents.flatMap (fun ud =>
      (db.documents.filter (fun d => ud.document_id = d.id)).map (fun d => (ud, d)))
    match joined.find? (fun p => p.1.public_key = public_key ∧ p.2.id = documentID) with
    | none => .error ErrNoRows
    | some p => .ok (p.1.document_key, p.2.contents)

/-! ## repository/user -/

namespace user

/-- `CryptoSuite`: two pointers, `none` being nil. -/
structure CryptoSuite where
  PublicKey : Option PublicKey
  PrivateKey : Option PrivateKey
deriving DecidableEq, Repr

/-- `bcrypt.DefaultCost`. -/
def bcryptDefaultCost : Nat := 10

/-- The constant `hextable` of `encoding/hex`. -/
def hextable : String := "0123456789abcdef"

/-- One character of `hex.EncodeToString`: `hextable[n]`. -/
def hexDigit (n : Nat) : Char :=
  hextable.toList.getD n '0'

/-- `hex.EncodeToString`: two characters for every byte, `v >> 4` then `v & 0x0f`. -/
def hexEncodeToString (src : Bytes) : String :=
  String.mk (src.flatMap (fun v => [hexDigit (v.val / 16), hexDigit (v.val % 16)]))

def BlockForString (lib : Lib) (password : Bytes) : Res Block :=
  let hashedPassword := lib.sha256 password
  match aesNewCipher hashedPassword with
  | .error e =>
    .ret none (some ("Error generating key encryption key cipher from password, " ++ e))
  | .ok block => .ret (some block) none

/-- `CreateUser(ctx, username, password)`; `fault` is a failure of the connection during
the insert. -/
def CreateUser (lib : Lib) (fault : Option Error) (db : DB) (ent : Entropy)
    (username password : Bytes) : Res (Int × String) × DB :=
  match lib.bcryptGenerate ent password bcryptDefaultCost with
  | .error e => (.ret (0, "") (some ("Couldn't hash user's password, " ++ e)), db)
  | .ok (hashedPassword, ent1) =>
  match lib.rsaGenerateKey ent1 4096 with
  | .error e => (.ret (0, "") (some ("Couldn't generate private key, " ++ e)), db)
  | .ok (pkey, ent2) =>
  let encodedPublicKey := lib.marshalPKCS1PublicKey pkey.pub
  let encodedPrivateKey := lib.marshalPKCS1PrivateKey pkey
  match BlockForString lib password with
  | .panic m => (.panic m, db)
  | .ret _ (some e) => (.ret (0, "") (some e), db)
  | .ret kekBlock none =>
  match EncryptWithBlock lib kekBlock encodedPrivateKey with
  | .panic m => (.panic m, db)
  | .ret _ (some e) => (.ret (0, "") (some ("Couldn't encrypt user's private key, " ++ e)), db)
  | .ret kekEncryptedPrivateKey none =>
  match RandomKey ent2 with
  | (.panic m, _) => (.panic m, db)
  | (.ret _ (some e), _) => (.ret (0, "") (some e), db)
  | (.ret (recoveryCode, recoveryCodeBlock) none, _) =>
  match EncryptWithBlock lib recoveryCodeBlock encodedPrivateKey with
  | .panic m => (.panic m, db)
  | .ret _ (some e) =>
    (.ret (0, "") (some ("Couldn't encrypt user's private key recovery, " ++ e)), db)
  | .ret recoveryCodeEncryptedPrivateKey none =>
  match insertUser fault db username hashedPassword encodedPublicKey kekEncryptedPrivateKey
      recoveryCodeEncryptedPrivateKey with
  | .error e => (.ret (0, "") (some ("Couldn't insert users data, " ++ e)), db)
  | .ok (userID, db1) => (.ret (userID, hexEncodeToString recoveryCode) none, db1)

/-- `Login(ctx, username, password)`; `fault` is a failure of the connection during the
query. `Scan` leaves its destinations at their zero values when the query gives an error,
and only `sql.ErrNoRows` is looked at before the hash is compared. The two `log.Printf`
lines write to the log of the process and are not part of the result. -/
def Login (lib : Lib) (fault : Option Error) (db : DB) (username password : Bytes) :
    Res CryptoSuite :=
  let row := selectLogin fault db username
  let hashedPassword : Bytes := match row with
    | .ok r => r.1
    | .error _ => []
  let plainPublicKey : Bytes := match row with
    | .ok r => r.2.1
    | .error _ => []
  let encryptedPrivateKey : Bytes := match row with
    | .ok r => r.2.2
    | .error _ => []
  let err : Option Error := match row with
    | .ok _ => none
    | .error e => some e
  if err = some ErrNoRows then .ret ⟨none, none⟩ (some "Login attempt failed")
  else if lib.bcryptCompare hashedPassword password = false then
    .ret ⟨none, none⟩ (some "Login attempt failed")
  else
  match BlockForString lib password with
  | .panic m => .panic m
  | .ret _ (some e) => .ret ⟨none, none⟩ (some e)
  | .ret kekBlock none =>
  match lib.parsePKCS1PublicKey plainPublicKey with
  | .error e => .ret ⟨none, none⟩ (some ("Coudn't parse public key, " ++ e))
  | .ok publicKey =>
  match DecryptWithBlock lib kekBlock encryptedPrivateKey with
  | .panic m => .panic m
  | .ret _ (some e) => .ret ⟨none, none⟩ (some ("Coudn't decrypt user's private key, " ++ e))
  | .ret plainPrivateKey none =>
  match lib.parsePKCS1PrivateKey plainPrivateKey with
  | .error e => .ret ⟨none, none⟩ (some ("Coudn't parse private key, " ++ e))
  | .ok privateKey => .ret ⟨some publicKey, some privateKey⟩ none

end user

/-! ## repository/document -/

namespace document

/-- The failures of the connection a call of `New` can meet, one for each call of the
store; `next = some k` is an error of the iteration after `k` rows, at which
`publicKeys.Next()` returns false. -/
structure Faults where
  query : Option Error
  scan : Option Error
  begin : Option Error
  insertDocument : Option Error
  insertGrants : Option Error
  commit : Option Error
  next : Option Nat
deriving DecidableEq, Repr

/-- No failure of the connection. -/
def noFaults : Faults := ⟨none, none, none, none, none, none, none⟩

/-- The rows for which `publicKeys.Next()` returns true: all rows of the result, or the
rows before an error of the iteration. `Next` returns false at the end of the rows and at
an error alike, and `New` does not read `publicKeys.Err()`. -/
def deliveredRows (next : Option Nat) (rows : List Bytes) : List Bytes :=
  match next with
  | none => rows
  | some k => rows.take k

/-- `strings.Join(elems, sep)`. -/
def stringsJoin : List String → String → String
  | [], _ => ""
  | [s], _ => s
  | s :: t :: rest, sep => s ++ sep ++ stringsJoin (t :: rest) sep

/-- `fmt.Sprintf("($1, $%d, $%d)", cnt, cnt+1)`. -/
def valuePart (cnt : Nat) : String :=
  "($1, $" ++ toString cnt ++ ", $" ++ toString (cnt + 1) ++ ")"

/-- The text `insertQueryBuilder` assembles from the value parts. -/
def insertQuery (valueParts : List String) : String :=
  "insert into users_documents(document_id, public_key, document_key) values " ++
    stringsJoin valueParts "," ++ ";"

/-- The loop `for cnt := 2; publicKeys.Next(); cnt += 2` of `New` over the rows the
iteration delivers: the arguments and the value parts it appends, or the error it returns
with. -/
def grantLoop (lib : Lib) (scan : Option Error) (documentKey : Bytes) :
    List Bytes → Nat → Entropy → List Arg → List String →
    Except Error (List Arg × List String)
  | [], _, _, insertQueryArgs, valueParts => .ok (insertQueryArgs, valueParts)
  | userPublicKey :: rest, cnt, ent, insertQueryArgs, valueParts =>
    match scan with
    | some e => .error ("Couldn't scan users public key, " ++ e)
    | none =>
    match lib.parsePKCS1PublicKey userPublicKey with
    | .error e => .error ("Invalid public key detected, " ++ e)
    | .ok publicKey =>
    match lib.encryptOAEP ent publicKey documentKey with
    | .error e => .error ("Error encrypting document key using users public key, " ++ e)
    | .ok (encryptedDocumentKey, ent1) =>
      grantLoop lib scan documentKey rest (cnt + 2) ent1
        (insertQueryArgs ++ [.bytes userPublicKey, .bytes encryptedDocumentKey])
        (valueParts ++ [valuePart cnt])

/-- The first part of `New(ctx, contents)`, up to `insertQuery := insertQueryBuilder.String()`
(lines 26 to 93): the encrypted contents, the text of the statement of the grants and its
arguments, the first of which is still nil; or what `New` returns with before that. -/
def New.statement (lib : Lib) (f : Faults) (db : DB) (ent : Entropy) (contents : Bytes) :
    Except (Res Int) (Bytes × String × List Arg) :=
  match RandomKey ent with
  | (.panic m, _) => .error (.panic m)
  | (.ret _ (some e), _) => .error (.ret 0 (some ("Couldn't generate document key, " ++ e)))
  | (.ret (documentKey, documentBlock) none, ent1) =>
  match EncryptWithBlock lib documentBlock contents with
  | .panic m => .error (.panic m)
  | .ret _ (some e) => .error (.ret 0 (some ("Couldn't encrypt document's content, " ++ e)))
  | .ret encryptedContent none =>
  match selectPublicKeys f.query db with
  | .error e => .error (.ret 0 (some ("Couldn't fetch public keys, " ++ e)))
  | .ok rows =>
  match grantLoop lib f.scan documentKey (deliveredRows f.next rows) 2 ent1 [.null] [] with
  | .error e => .error (.ret 0 (some e))
  | .ok (insertQueryArgs, valueParts) =>
    .ok (encryptedContent, insertQuery valueParts, insertQueryArgs)

/-- `New(ctx, contents)`; `f` gives the failures of the connection. After the statement of
the grants is assembled (`New.statement`) the transaction follows (lines 95 to 119). -/
def New (lib : Lib) (f : Faults) (db : DB) (ent : Entropy) (contents : Bytes) :
    Res Int × DB :=
  match New.statement lib f db ent contents with
  | .error r => (r, db)
  | .ok (encryptedContent, insertQuery, insertQueryArgs) =>
  match beginTx f.begin db with
  | .error _ => (.ret 0 none, db)
  | .ok tx =>
  match insertDocument f.insertDocument tx encryptedContent with
  | .error e => (.ret 0 (some ("Couldn't save encrypted document's content, " ++ e)), db)
  | .ok (documentID, tx1) =>
  let insertQueryArgs := insertQueryArgs.set 0 (.int documentID)
  match insertGrants f.insertGrants tx1 insertQuery insertQueryArgs with
  | .error e => (.ret 0 (some e), db)
  | .ok tx2 =>
  match commitTx f.commit tx2 with
  | .error e => (.ret 0 (some e), db)
  | .ok db1 => (.ret documentID none, db1)

/-- `Get(ctx, userCrypto, documentID)`; `fault` is a failure of the connection during the
query. Marshalling a nil public key and decrypting with a nil private key dereference
nil. -/
def Get (lib : Lib) (fault : Option Error) (db : DB) (userCrypto : user.CryptoSuite)
    (documentID : Int) : Res Bytes :=
  match userCrypto.PublicKey with
  | none => .panic nilDereference
  | some publicKey =>
  match selectGrant fault db (lib.marshalPKCS1PublicKey publicKey) documentID with
  | .error e => .ret [] (some ("Couldn't query document contents, " ++ e))
  | .ok (encryptedDocumentKey, encryptedDocument) =>
  match userCrypto.PrivateKey with
  | none => .panic nilDereference
  | some privateKey =>
  match lib.decryptOAEP privateKey encryptedDocumentKey with
  | .error e => .ret [] (some ("Couldn't decrypt document key, " ++ e))
  | .ok documentKey =>
  match AESDecrypt lib documentKey encryptedDocument with
  | .panic m => .panic m
  | .ret _ (some e) => .ret [] (some ("Couldn't decrypt document, " ++ e))
  | .ret documentContents none => .ret documentContents none

end document

/-! ## Assumptions on the library -/

/-- GCM `Open` inverts GCM `Seal` under the same key and the same nonce of 12 bytes. -/
def Lib.OpenInvertsSeal (lib : Lib) : Prop :=
  ∀ key nonce plaintext : Bytes, nonce.length = nonceSize →
    lib.gcmOpen key nonce (lib.gcmSeal key nonce plaintext) = some plaintext

/-- GCM `Seal` gives the ciphertext, as long as the plaintext, followed by the tag. -/
def Lib.SealAddsTag (lib : Lib) : Prop :=
  ∀ key nonce plaintext : Bytes, nonce.length = nonceSize →
    (lib.gcmSeal key nonce plaintext).length = plaintext.length + tagSize

/-- A hash made by `bcrypt.GenerateFromPassword` compares equal to its password. -/
def Lib.HashVerifies (lib : Lib) : Prop :=
  ∀ (ent ent1 : Entropy) (password hash : Bytes) (cost : Nat),
    lib.bcryptGenerate ent password cost = .ok (hash, ent1) →
    lib.bcryptCompare hash password = true

/-- A key made by `rsa.GenerateKey` survives PKCS#1 marshalling and parsing, and decrypts
what was encrypted for its public key. -/
def Lib.GeneratedKeysWork (lib : Lib) : Prop :=
  ∀ (ent ent1 : Entropy) (bits : Nat) (pkey : PrivateKey),
    lib.rsaGenerateKey ent bits = .ok (pkey, ent1) →
    lib.parsePKCS1PublicKey (lib.marshalPKCS1PublicKey pkey.pub) = .ok pkey.pub ∧
    lib.parsePKCS1PrivateKey (lib.marshalPKCS1PrivateKey pkey) = .ok pkey ∧
    ∀ (e e1 : Entropy) (msg wrapped : Bytes),
      lib.encryptOAEP e pkey.pub msg = .ok (wrapped, e1) →
      lib.decryptOAEP pkey wrapped = .ok msg

/-! ## A small library to run the definitions on -/

/-- A stand-in for the library with the shape of the real one: sealing puts a tag of 16
bytes in front, hashing pads or cuts to 32 bytes, a bcrypt hash is the password itself,
and a key pair is read off the first byte of the entropy. -/
def toyLib : Lib where
  gcmSeal := fun key _ plaintext => (key ++ makeBytes tagSize).take tagSize ++ plaintext
  gcmOpen := fun key _ sealed =>
    if sealed.take tagSize = (key ++ makeBytes tagSize).take tagSize then
      some (sealed.drop tagSize)
    else none
  sha256 := fun message => (message ++ makeBytes 32).take 32
  bcryptGenerate := fun ent password _ => .ok (password, ent)
  bcryptCompare := fun hash password => decide (hash = password)
  rsaGenerateKey := fun ent _ =>
    match ent with
    | [] => .error "unexpected EOF"
    | b :: rest => .ok (⟨⟨b.val, 3⟩, b.val, []⟩, rest)
  marshalPKCS1PublicKey := fun pub => [Fin.ofNat pub.N]
  marshalPKCS1PrivateKey := fun pkey => [Fin.ofNat pkey.pub.N, 0]
  parsePKCS1PublicKey := fun der =>
    match der with
    | [n] => .ok ⟨n.val, 3⟩
    | _ => .error "x509: failed to parse public key"
  parsePKCS1PrivateKey := fun der =>
    match der with
    | [n, _] => .ok ⟨⟨n.val, 3⟩, n.val, []⟩
    | _ => .error "x509: failed to parse private key"
  encryptOAEP := fun ent pub msg => .ok (Fin.ofNat pub.N :: msg, ent)
  decryptOAEP := fun pkey wrapped =>
    match wrapped with
    | [] => .error "crypto/rsa: decryption error"
    | n :: msg =>
      if n.val = pkey.pub.N then .ok msg else .error "crypto/rsa: decryption error"

/-- A store without rows, its sequences at 1. -/
def emptyDB : DB := ⟨[], [], [], 1, 1⟩

/-- Forty bytes of entropy, 1, 2, ..., 40. -/
def sampleEntropy : Entropy := (List.range 40).map (fun i => Fin.ofNat (i + 1))

def sampleUsername : Bytes := [97, 108, 105, 99, 101]

def samplePassword : Bytes := [115, 51, 99, 114, 51, 116]

def sampleContents : Bytes := [104, 101, 108, 108, 111]

/-- A key of 16 bytes. -/
def sampleKey : Bytes := (List.range 16).map (fun i => Fin.ofNat (i + 100))

/-- The store after `alice` has registered in the empty store. -/
def sampleDB1 : DB :=
  (user.CreateUser toyLib none emptyDB sampleEntropy sampleUsername samplePassword).2

/-- The store after a document was then created. -/
def sampleDB2 : DB :=
  (document.New toyLib document.noFaults sampleDB1 sampleEntropy sampleContents).2

/-- The row `CreateUser` stores for a password hash, a key pair and a recovery key. -/
def registeredRow (lib : Lib) (id : Int) (username password hashedPassword : Bytes)
    (pkey : PrivateKey) (recoveryCode : Bytes) : UserRow :=
  ⟨id, username, hashedPassword, lib.marshalPKCS1PublicKey pkey.pub,
    makeBytes nonceSize ++
      lib.gcmSeal (lib.sha256 password) (makeBytes nonceSize) (lib.marshalPKCS1PrivateKey pkey),
    makeBytes nonceSize ++
      lib.gcmSeal recoveryCode (makeBytes nonceSize) (lib.marshalPKCS1PrivateKey pkey)⟩

/-- The name of a second user. -/
def sampleUsername2 : Bytes := [98, 111, 98]

def samplePassword2 : Bytes := [104, 117, 110, 116, 101, 114, 50]

/-- Forty bytes of entropy, 51, 52, ..., 90. -/
def sampleEntropy2 : Entropy := (List.range 40).map (fun i => Fin.ofNat (i + 51))

/-- The store after `bob` has registered as well. -/
def sampleDB3 : DB :=
  (user.CreateUser toyLib none sampleDB1 sampleEntropy2 sampleUsername2 samplePassword2).2

/-- The store after a document was created with both users registered and the iteration
over the public keys failing after the first row. -/
def sampleDB4 : DB :=
  (document.New toyLib ⟨none, none, none, none, none, none, some 1⟩ sampleDB3 sampleEntropy
    sampleContents).2

/-- The store after a document was created with both users registered. -/
def sampleDB5 : DB :=
  (document.New toyLib document.noFaults sampleDB3 sampleEntropy sampleContents).2

/-- The arguments the loop of `New` appends for pairs of a public key and the document key
wrapped for it. -/
def grantArgs : List (Bytes × Bytes) → List Arg
  | [] => []
  | (k, w) :: rest => .bytes k :: .bytes w :: grantArgs rest

/-- The value parts the loop of `New` appends in `n` rounds, its counter starting at `cnt`. -/
def grantTuples : Nat → Nat → List ValueTuple
  | _, 0 => []
  | cnt, n + 1 => ⟨1, cnt, cnt + 1⟩ :: grantTuples (cnt + 2) n

/-- The grant of a document for a public key and the document key wrapped for it. -/
def grantRow (d : Int) (p : Bytes × Bytes) : GrantRow := ⟨d, p.1, p.2⟩

/-! ## Facts about the small library -/

theorem toyLib_tag_length (key : Bytes) :
    ((key ++ makeBytes tagSize).take tagSize).length = tagSize := by
  simp [makeBytes, tagSize]

theorem toyLib_openInvertsSeal : toyLib.OpenInvertsSeal := by
  intro key nonce plaintext _
  have h := toyLib_tag_length key
  simp only [toyLib]
  rw [List.take_left' h, List.drop_left' h]
  simp

theorem toyLib_sealAddsTag : toyLib.SealAddsTag := by
  intro key nonce plaintext _
  have h := toyLib_tag_length key
  simp only [toyLib, List.length_append, h]
  omega

theorem toyLib_hashVerifies : toyLib.HashVerifies := by
  intro ent ent1 password hash cost h
  simp only [toyLib, Except.ok.injEq, Prod.mk.injEq] at h
  simp [toyLib, h.1]

theorem toyLib_generatedKeysWork : toyLib.GeneratedKeysWork := by
  intro ent ent1 bits pkey h
  cases ent with
  | nil => simp [toyLib] at h
  | cons b rest =>
    simp only [toyLib, Except.ok.injEq, Prod.mk.injEq] at h
    obtain ⟨hk, -⟩ := h
    subst hk
    have hb : (Fin.ofNat b.val : Fin 256) = b := by
      apply Fin.ext
      simp [Fin.ofNat, Nat.mod_eq_of_lt b.isLt]
    refine ⟨?_, ?_, ?_⟩
    · simp [toyLib, hb]
    · simp [toyLib, hb]
    · intro e e1 msg wrapped hw
      simp only [toyLib, Except.ok.injEq, Prod.mk.injEq] at hw
      obtain ⟨hw, -⟩ := hw
      subst hw
      simp [toyLib, hb]

/-! ## The AEAD cipher -/

theorem aesNewCipher_ok {key : Bytes} {blk : AESCipher} (h : aesNewCipher key = .ok blk) :
    blk = ⟨key, 16⟩ := by
  unfold aesNewCipher at h
  split at h
  · simp only [Except.ok.injEq] at h
    exact h.symm
  · simp at h

theorem EncryptWithBlock_aes (lib : Lib) (key data : Bytes) :
    EncryptWithBlock lib (some ⟨key, 16⟩) data =
      .ret (makeBytes nonceSize ++ lib.gcmSeal key (makeBytes nonceSize) data) none := by
  simp [EncryptWithBlock, newGCM]

theorem DecryptWithBlock_sealed (lib : Lib) (hgcm : lib.OpenInvertsSeal) (key data : Bytes) :
    DecryptWithBlock lib (some ⟨key, 16⟩)
      (makeBytes nonceSize ++ lib.gcmSeal key (makeBytes nonceSize) data) = .ret data none := by
  have hlen : (makeBytes nonceSize).length = nonceSize := by simp [makeBytes]
  simp only [DecryptWithBlock, newGCM, if_true, List.length_append, hlen]
  rw [if_neg (by omega), List.take_left' hlen, List.drop_left' hlen, hgcm _ _ _ hlen]

/-- C1. For every AES block cipher (built by `aes.NewCipher` from a key of 16, 24 or 32
bytes) and every plaintext, `EncryptWithBlock` returns a ciphertext without error, and
`DecryptWithBlock` under the same block, as well as `AESDecrypt` under the key, return
exactly the plaintext without error, given that GCM `Open` inverts GCM `Seal`. -/
theorem aead_round_trip (lib : Lib) (hgcm : lib.OpenInvertsSeal) (key : Bytes)
    (blk : AESCipher) (hblk : aesNewCipher key = .ok blk) (P : Bytes) :
    ∃ C, EncryptWithBlock lib (some blk) P = .ret C none ∧
      DecryptWithBlock lib (some blk) C = .ret P none ∧
      AESDecrypt lib key C = .ret P none := by
  have hb := aesNewCipher_ok hblk
  subst hb
  refine ⟨_, EncryptWithBlock_aes lib key P, DecryptWithBlock_sealed lib hgcm key P, ?_⟩
  simp only [AESDecrypt, hblk]
  exact DecryptWithBlock_sealed lib hgcm key P

theorem aead_round_trip_witness :
    toyLib.OpenInvertsSeal ∧ aesNewCipher sampleKey = .ok ⟨sampleKey, 16⟩ ∧
    ∃ C, EncryptWithBlock toyLib (some ⟨sampleKey, 16⟩) sampleContents = .ret C none ∧
      DecryptWithBlock toyLib (some ⟨sampleKey, 16⟩) C = .ret sampleContents none ∧
      AESDecrypt toyLib sampleKey C = .ret sampleContents none :=
  ⟨toyLib_openInvertsSeal, rfl,
    aead_round_trip toyLib toyLib_openInvertsSeal sampleKey ⟨sampleKey, 16⟩ rfl sampleContents⟩

/-- C4. `EncryptWithBlock` never reads the random source: whatever the block and the data,
the nonce it seals with, which is the first `NonceSize` bytes of its output, is the zeroed
buffer `make([]byte, NonceSize())`, so any two calls write the same all-zero nonce. -/
theorem EncryptWithBlock_nonce_is_zero (lib : Lib) (key1 key2 data1 data2 : Bytes) :
    ∃ c1 c2, EncryptWithBlock lib (some ⟨key1, 16⟩) data1 = .ret c1 none ∧
      EncryptWithBlock lib (some ⟨key2, 16⟩) data2 = .ret c2 none ∧
      c1 = List.replicate 12 0 ++ lib.gcmSeal key1 (List.replicate 12 0) data1 ∧
      c1.take nonceSize = List.replicate 12 0 ∧
      c2.take nonceSize = c1.take nonceSize := by
  have hlen : (makeBytes nonceSize).length = nonceSize := by simp [makeBytes]
  refine ⟨_, _, EncryptWithBlock_aes lib key1 data1, EncryptWithBlock_aes lib key2 data2,
    rfl, ?_, ?_⟩
  · rw [List.take_left' hlen]; rfl
  · rw [List.take_left' hlen, List.take_left' hlen]

/-- C5. On an input shorter than the nonce (here any input cut to at most 11 bytes, the
empty one included) `DecryptWithBlock` under an AES block and `AESDecrypt` under a key of
16 bytes do not return an error: they panic on the slice expression. -/
theorem DecryptWithBlock_short_input_panics (lib : Lib) (key data : Bytes) :
    DecryptWithBlock lib (some ⟨key, 16⟩) (data.take 11) =
        .panic "runtime error: slice bounds out of range" ∧
      DecryptWithBlock lib (some ⟨key, 16⟩) [] =
        .panic "runtime error: slice bounds out of range" ∧
      AESDecrypt lib sampleKey (data.take 11) =
        .panic "runtime error: slice bounds out of range" := by
  have hlen : (data.take 11).length < nonceSize := by
    simp only [List.length_take, nonceSize]; omega
  have hkey : aesNewCipher sampleKey = .ok ⟨sampleKey, 16⟩ := rfl
  refine ⟨?_, ?_, ?_⟩
  · simp only [DecryptWithBlock, newGCM, if_true, if_pos hlen]
  · simp [DecryptWithBlock, newGCM, nonceSize]
  · simp only [AESDecrypt, hkey, DecryptWithBlock, newGCM, if_true, if_pos hlen]

/-! ## Registration and login -/

theorem readFull_ok {ent ent1 : Entropy} {n : Nat} {b : Bytes}
    (h : readFull ent n = .ok (b, ent1)) : b = ent.take n ∧ b.length = n ∧ ent1 = ent.drop n := by
  unfold readFull at h
  split at h
  · simp only [Except.ok.injEq, Prod.mk.injEq] at h
    obtain ⟨h1, h2⟩ := h
    subst h1 h2
    refine ⟨rfl, ?_, rfl⟩
    simp only [List.length_take]; omega
  · simp at h

theorem RandomKey_ok {ent ent1 : Entropy} {key : Bytes} {blk : Block}
    (h : RandomKey ent = (.ret (key, blk) none, ent1)) :
    key = ent.take 32 ∧ key.length = 32 ∧ blk = some ⟨key, 16⟩ ∧ ent1 = ent.drop 32 := by
  unfold RandomKey at h
  split at h
  · simp at h
  · rename_i keyBytes e1 hread
    obtain ⟨h1, h2, h3⟩ := readFull_ok hread
    split at h
    · simp at h
    · rename_i c hc
      have hc1 := aesNewCipher_ok hc
      simp only [Prod.mk.injEq, Res.ret.injEq, and_true] at h
      obtain ⟨⟨hk, hb⟩, he⟩ := h
      subst hk
      refine ⟨h1, h2, ?_, ?_⟩
      · rw [← hb, hc1]
      · rw [← he, h3]

theorem BlockForString_ok {lib : Lib} {password : Bytes} {blk : Block}
    (h : user.BlockForString lib password = .ret blk none) :
    blk = some ⟨lib.sha256 password, 16⟩ := by
  unfold user.BlockForString at h
  simp only at h
  split at h
  · simp at h
  · rename_i c hc
    have hc1 := aesNewCipher_ok hc
    simp only [Res.ret.injEq, and_true] at h
    rw [← h, hc1]

theorem insertUser_ok {fault : Option Error} {db db1 : DB}
    {name password public_key private_key private_key_recovery : Bytes} {id : Int}
    (h : insertUser fault db name password public_key private_key private_key_recovery =
      .ok (id, db1)) :
    id = db.usersSeq ∧ (∀ r ∈ db.users, r.name ≠ name) ∧
    db1 = { db with
      users := db.users ++
        [⟨db.usersSeq, name, password, public_key, private_key, private_key_recovery⟩]
      usersSeq := db.usersSeq + 1 } := by
  unfold insertUser at h
  split at h
  · simp at h
  · split at h
    · simp at h
    · rename_i hname
      split at h
      · simp at h
      · split at h
        · simp at h
        · simp only [Except.ok.injEq, Prod.mk.injEq] at h
          refine ⟨h.1.symm, ?_, h.2.symm⟩
          intro r hr hn
          apply hname
          simp only [List.any_eq_true, decide_eq_true_eq]
          exact ⟨r, hr, hn⟩

theorem CreateUser_ok {lib : Lib} {fault : Option Error} {db db1 : DB} {ent : Entropy}
    {username password : Bytes} {uid : Int} {code : String}
    (h : user.CreateUser lib fault db ent username password = (.ret (uid, code) none, db1)) :
    ∃ hashedPassword ent1 pkey ent2,
      lib.bcryptGenerate ent password user.bcryptDefaultCost = .ok (hashedPassword, ent1) ∧
      lib.rsaGenerateKey ent1 4096 = .ok (pkey, ent2) ∧
      user.BlockForString lib password = .ret (some ⟨lib.sha256 password, 16⟩) none ∧
      (ent2.take 32).length = 32 ∧
      code = user.hexEncodeToString (ent2.take 32) ∧
      uid = db.usersSeq ∧ (∀ r ∈ db.users, r.name ≠ username) ∧
      db1 = { db with
        users := db.users ++
          [registeredRow lib db.usersSeq username password hashedPassword pkey (ent2.take 32)]
        usersSeq := db.usersSeq + 1 } := by
  unfold user.CreateUser at h
  split at h
  · simp at h
  rename_i hashedPassword ent1 hhash
  split at h
  · simp at h
  rename_i pkey ent2 hgen
  simp only at h
  split at h
  · simp at h
  · simp at h
  rename_i kekBlock hkek
  have hkek1 := BlockForString_ok hkek
  subst hkek1
  have hkek2 := hkek
  rw [EncryptWithBlock_aes] at h
  simp only at h
  split at h
  · simp at h
  · simp at h
  rename_i recoveryCode recoveryCodeBlock ent3 hrand
  obtain ⟨hr1, hr2, hr3, -⟩ := RandomKey_ok hrand
  subst hr3
  rw [EncryptWithBlock_aes] at h
  simp only at h
  split at h
  · simp at h
  rename_i userID db2 hins
  obtain ⟨hi1, hi2, hi3⟩ := insertUser_ok hins
  simp only [Prod.mk.injEq, Res.ret.injEq, and_true] at h
  obtain ⟨⟨hu, hc⟩, hd⟩ := h
  refine ⟨hashedPassword, ent1, pkey, ent2, hhash, hgen, ?_, ?_, ?_, ?_, hi2, ?_⟩
  · exact hkek2
  · rw [← hr1]; exact hr2
  · rw [← hc, hr1]
  · rw [← hu, hi1]
  · rw [← hd, hi3, hr1]; rfl

theorem hexEncodeToString_length (src : Bytes) :
    (user.hexEncodeToString src).length = 2 * src.length := by
  unfold user.hexEncodeToString
  rw [String.length_mk]
  induction src with
  | nil => rfl
  | cons b rest ih =>
    simp only [List.flatMap_cons, List.length_append, List.length_cons, List.length_nil, ih]
    omega

theorem find_registered (users : List UserRow) (row : UserRow) (username : Bytes)
    (hname : row.name = username) (hfresh : ∀ r ∈ users, r.name ≠ username) :
    (users ++ [row]).find? (fun r => r.name = username) = some row := by
  have hnone : users.find? (fun r => decide (r.name = username)) = none := by
    rw [List.find?_eq_none]
    intro r hr
    simpa using hfresh r hr
  rw [List.find?_append, hnone]
  simp [List.find?, hname]

/-- What `Login` returns when the query finds the row of a registered user. -/
theorem Login_registered (lib : Lib) (hgcm : lib.OpenInvertsSeal)
    (hkeys : lib.GeneratedKeysWork) (db : DB) (username password hashedPassword : Bytes)
    (pkey : PrivateKey) (ent ent1 : Entropy) (bits : Nat)
    (hgen : lib.rsaGenerateKey ent bits = .ok (pkey, ent1))
    (hkek : user.BlockForString lib password = .ret (some ⟨lib.sha256 password, 16⟩) none)
    (hrow : selectLogin none db username = .ok (hashedPassword, lib.marshalPKCS1PublicKey pkey.pub,
      makeBytes nonceSize ++ lib.gcmSeal (lib.sha256 password) (makeBytes nonceSize)
        (lib.marshalPKCS1PrivateKey pkey))) :
    user.Login lib none db username password =
      if lib.bcryptCompare hashedPassword password = false then
        .ret ⟨none, none⟩ (some "Login attempt failed")
      else .ret ⟨some pkey.pub, some pkey⟩ none := by
  obtain ⟨hpub, hpriv, -⟩ := hkeys ent ent1 bits pkey hgen
  unfold user.Login
  simp only [hrow, hkek, hpub, hpriv, DecryptWithBlock_sealed lib hgcm]
  simp

theorem aesNewCipher_32 {key : Bytes} (h : key.length = 32) :
    aesNewCipher key = .ok ⟨key, 16⟩ := by
  simp [aesNewCipher, h]

theorem AESDecrypt_sealed (lib : Lib) (hgcm : lib.OpenInvertsSeal) (key data : Bytes)
    (hkey : key.length = 32) :
    AESDecrypt lib key (makeBytes nonceSize ++ lib.gcmSeal key (makeBytes nonceSize) data) =
      .ret data none := by
  simp only [AESDecrypt, aesNewCipher_32 hkey]
  exact DecryptWithBlock_sealed lib hgcm key data

theorem selectLogin_registered (db : DB) (row : UserRow) (username : Bytes)
    (hname : row.name = username) (hfresh : ∀ r ∈ db.users, r.name ≠ username) (seq : Int) :
    selectLogin none { db with users := db.users ++ [row], usersSeq := seq } username =
      .ok (row.password, row.public_key, row.private_key) := by
  simp only [selectLogin]
  rw [find_registered db.users row username hname hfresh]

/-- C3. If `CreateUser(username, password)` succeeds (which, the username being unique in
the store, it only does for a username not yet there), then `Login(username, password)` on
the resulting store succeeds and returns a suite with both keys set: the private key is the
key generated at registration, and the PKCS#1 encoding of the public key is the
`public_key` stored in the row of that user. It is assumed that GCM `Open` inverts `Seal`,
that a bcrypt hash verifies its password and that a generated key survives marshalling. -/
theorem register_then_login (lib : Lib) (hgcm : lib.OpenInvertsSeal)
    (hhash : lib.HashVerifies) (hkeys : lib.GeneratedKeysWork) (fault : Option Error)
    (db db1 : DB) (ent : Entropy) (username password : Bytes) (uid : Int) (code : String)
    (hcreate :
      user.CreateUser lib fault db ent username password = (.ret (uid, code) none, db1)) :
    ∃ (pkey : PrivateKey) (publicKey : PublicKey) (row : UserRow)
      (hashedPassword : Bytes) (ent1 ent2 : Entropy),
      lib.bcryptGenerate ent password user.bcryptDefaultCost = .ok (hashedPassword, ent1) ∧
      lib.rsaGenerateKey ent1 4096 = .ok (pkey, ent2) ∧
      row ∈ db1.users ∧ row.id = uid ∧ row.name = username ∧
      user.Login lib none db1 username password = .ret ⟨some publicKey, some pkey⟩ none ∧
      lib.marshalPKCS1PublicKey publicKey = row.public_key := by
  obtain ⟨hashedPassword, ent1, pkey, ent2, hb, hg, hkek, -, -, hu, hfresh, hdb⟩ :=
    CreateUser_ok hcreate
  refine ⟨pkey, pkey.pub,
    registeredRow lib db.usersSeq username password hashedPassword pkey (ent2.take 32),
    hashedPassword, ent1, ent2, hb, hg, ?_, hu.symm, rfl, ?_, rfl⟩
  · rw [hdb]; simp
  · have hrow := selectLogin_registered db
      (registeredRow lib db.usersSeq username password hashedPassword pkey (ent2.take 32))
      username rfl hfresh (db.usersSeq + 1)
    rw [← hdb] at hrow
    rw [Login_registered lib hgcm hkeys db1 username password hashedPassword pkey ent1 ent2
      4096 hg hkek hrow, hhash ent ent1 password hashedPassword _ hb]
    simp

theorem register_then_login_witness :
    toyLib.OpenInvertsSeal ∧ toyLib.HashVerifies ∧ toyLib.GeneratedKeysWork ∧
    user.CreateUser toyLib none emptyDB sampleEntropy sampleUsername samplePassword =
      (.ret (1, "02030405060708090a0b0c0d0e0f101112131415161718191a1b1c1d1e1f2021") none,
        sampleDB1) ∧
    ∃ (pkey : PrivateKey) (publicKey : PublicKey) (row : UserRow)
      (hashedPassword : Bytes) (ent1 ent2 : Entropy),
      toyLib.bcryptGenerate sampleEntropy samplePassword user.bcryptDefaultCost =
        .ok (hashedPassword, ent1) ∧
      toyLib.rsaGenerateKey ent1 4096 = .ok (pkey, ent2) ∧
      row ∈ sampleDB1.users ∧ row.id = 1 ∧ row.name = sampleUsername ∧
      user.Login toyLib none sampleDB1 sampleUsername samplePassword =
        .ret ⟨some publicKey, some pkey⟩ none ∧
      toyLib.marshalPKCS1PublicKey publicKey = row.public_key :=
  ⟨toyLib_openInvertsSeal, toyLib_hashVerifies, toyLib_generatedKeysWork, rfl,
    register_then_login toyLib toyLib_openInvertsSeal toyLib_hashVerifies
      toyLib_generatedKeysWork none emptyDB sampleDB1 sampleEntropy sampleUsername
      samplePassword 1 _ rfl⟩

/-- C8. `Login` for a username that has no row in the store, and `Login` for a username
that has a row with a password that does not verify against the stored hash, return the
same result: the zero `CryptoSuite`, both keys nil, and the error "Login attempt failed". -/
theorem login_failure_is_generic (lib : Lib) (db : DB)
    (absent existing password1 password2 : Bytes) (row : UserRow)
    (habsent : ∀ r ∈ db.users, r.name ≠ absent)
    (hrow : db.users.find? (fun r => r.name = existing) = some row)
    (hbad : lib.bcryptCompare row.password password2 = false) :
    user.Login lib none db absent password1 =
        .ret ⟨none, none⟩ (some "Login attempt failed") ∧
      user.Login lib none db existing password2 =
        .ret ⟨none, none⟩ (some "Login attempt failed") ∧
      user.Login lib none db absent password1 = user.Login lib none db existing password2 := by
  have hnone : db.users.find? (fun r => decide (r.name = absent)) = none := by
    rw [List.find?_eq_none]
    intro r hr
    simpa using habsent r hr
  have h1 : user.Login lib none db absent password1 =
      .ret ⟨none, none⟩ (some "Login attempt failed") := by
    simp [user.Login, selectLogin, hnone]
  have h2 : user.Login lib none db existing password2 =
      .ret ⟨none, none⟩ (some "Login attempt failed") := by
    simp [user.Login, selectLogin, hrow, hbad, ErrNoRows]
  exact ⟨h1, h2, h1.trans h2.symm⟩

theorem login_failure_is_generic_witness :
    (∀ r ∈ sampleDB1.users, r.name ≠ [98, 111, 98]) ∧
    sampleDB1.users.find? (fun r => r.name = sampleUsername) =
      some (registeredRow toyLib 1 sampleUsername samplePassword samplePassword
        ⟨⟨1, 3⟩, 1, []⟩ ((sampleEntropy.drop 1).take 32)) ∧
    toyLib.bcryptCompare samplePassword [119, 114, 111, 110, 103] = false ∧
    user.Login toyLib none sampleDB1 [98, 111, 98] samplePassword =
        .ret ⟨none, none⟩ (some "Login attempt failed") ∧
      user.Login toyLib none sampleDB1 sampleUsername [119, 114, 111, 110, 103] =
        .ret ⟨none, none⟩ (some "Login attempt failed") ∧
      user.Login toyLib none sampleDB1 [98, 111, 98] samplePassword =
        user.Login toyLib none sampleDB1 sampleUsername [119, 114, 111, 110, 103] :=
  ⟨by decide, rfl, rfl,
    login_failure_is_generic toyLib sampleDB1 [98, 111, 98] sampleUsername samplePassword
      [119, 114, 111, 110, 103] _ (by decide) rfl rfl⟩

/-- C9. After a successful `CreateUser` the returned recovery code is the hex encoding, 64
characters long, of a key `K` of 32 bytes read from the random source, and for the row
stored for the user `AESDecrypt(K, private_key_recovery)` returns the PKCS#1 encoding of
the generated private key, which is also what `private_key` decrypts to under
`BlockForString(password)`; GCM `Open` is assumed to invert `Seal`. -/
theorem recovery_code_unlocks_private_key (lib : Lib) (hgcm : lib.OpenInvertsSeal)
    (fault : Option Error) (db db1 : DB) (ent : Entropy) (username password : Bytes)
    (uid : Int) (code : String)
    (hcreate :
      user.CreateUser lib fault db ent username password = (.ret (uid, code) none, db1)) :
    ∃ (K : Bytes) (pkey : PrivateKey) (row : UserRow) (kekBlock : Block)
      (hashedPassword : Bytes) (ent1 ent2 : Entropy),
      lib.bcryptGenerate ent password user.bcryptDefaultCost = .ok (hashedPassword, ent1) ∧
      lib.rsaGenerateKey ent1 4096 = .ok (pkey, ent2) ∧
      readFull ent2 32 = .ok (K, ent2.drop 32) ∧
      K.length = 32 ∧ code = user.hexEncodeToString K ∧ code.length = 64 ∧
      row ∈ db1.users ∧ row.id = uid ∧ row.name = username ∧
      AESDecrypt lib K row.private_key_recovery =
        .ret (lib.marshalPKCS1PrivateKey pkey) none ∧
      user.BlockForString lib password = .ret kekBlock none ∧
      DecryptWithBlock lib kekBlock row.private_key =
        .ret (lib.marshalPKCS1PrivateKey pkey) none := by
  obtain ⟨hashedPassword, ent1, pkey, ent2, hb, hg, hkek, hlen, hcode, hu, -, hdb⟩ :=
    CreateUser_ok hcreate
  refine ⟨ent2.take 32, pkey,
    registeredRow lib db.usersSeq username password hashedPassword pkey (ent2.take 32),
    some ⟨lib.sha256 password, 16⟩, hashedPassword, ent1, ent2, hb, hg, ?_, hlen, hcode, ?_, ?_,
    hu.symm, rfl, ?_, hkek, ?_⟩
  · have hle : 32 ≤ ent2.length := by
      simp only [List.length_take] at hlen; omega
    simp [readFull, hle]
  · rw [hcode, hexEncodeToString_length, hlen]
  · rw [hdb]; simp
  · exact AESDecrypt_sealed lib hgcm _ _ hlen
  · exact DecryptWithBlock_sealed lib hgcm _ _

theorem recovery_code_unlocks_private_key_witness :
    toyLib.OpenInvertsSeal ∧
    user.CreateUser toyLib none emptyDB sampleEntropy sampleUsername samplePassword =
      (.ret (1, "02030405060708090a0b0c0d0e0f101112131415161718191a1b1c1d1e1f2021") none,
        sampleDB1) ∧
    ∃ (K : Bytes) (pkey : PrivateKey) (row : UserRow) (kekBlock : Block)
      (hashedPassword : Bytes) (ent1 ent2 : Entropy),
      toyLib.bcryptGenerate sampleEntropy samplePassword user.bcryptDefaultCost =
        .ok (hashedPassword, ent1) ∧
      toyLib.rsaGenerateKey ent1 4096 = .ok (pkey, ent2) ∧
      readFull ent2 32 = .ok (K, ent2.drop 32) ∧
      K.length = 32 ∧
      "02030405060708090a0b0c0d0e0f101112131415161718191a1b1c1d1e1f2021" =
        user.hexEncodeToString K ∧
      "02030405060708090a0b0c0d0e0f101112131415161718191a1b1c1d1e1f2021".length = 64 ∧
      row ∈ sampleDB1.users ∧ row.id = 1 ∧ row.name = sampleUsername ∧
      AESDecrypt toyLib K row.private_key_recovery =
        .ret (toyLib.marshalPKCS1PrivateKey pkey) none ∧
      user.BlockForString toyLib samplePassword = .ret kekBlock none ∧
      DecryptWithBlock toyLib kekBlock row.private_key =
        .ret (toyLib.marshalPKCS1PrivateKey pkey) none :=
  ⟨toyLib_openInvertsSeal, rfl,
    recovery_code_unlocks_private_key toyLib toyLib_openInvertsSeal none emptyDB sampleDB1
      sampleEntropy sampleUsername samplePassword 1 _ rfl⟩

/-! ## The text of the statement of the grants -/

theorem expect_append : ∀ (es cs : List Char), expect es (es ++ cs) = some cs := by
  intro es
  induction es with
  | nil => intro cs; rfl
  | cons e es ih => intro cs; simp [expect, ih]

theorem digitChar_isDigit (d : Nat) (h : d < 10) :
    (Nat.digitChar d).isDigit = true ∧ (Nat.digitChar d).toNat - 48 = d := by
  interval_cases d <;> exact ⟨by decide, by decide⟩

theorem toDigitsCore_append : ∀ (fuel n : Nat) (ds : List Char),
    Nat.toDigitsCore 10 fuel n ds = Nat.toDigitsCore 10 fuel n [] ++ ds := by
  intro fuel
  induction fuel with
  | zero => intro n ds; rfl
  | succ fuel ih =>
    intro n ds
    simp only [Nat.toDigitsCore]
    split
    · rfl
    · rw [ih (n / 10) (_ :: ds), ih (n / 10) [_]]
      simp

/-- The value of a sequence of decimal digits, as `readNumber` computes it. -/
theorem toDigitsCore_value : ∀ (fuel n : Nat), n < fuel →
    Nat.toDigitsCore 10 fuel n [] ≠ [] ∧
    (∀ c ∈ Nat.toDigitsCore 10 fuel n [], c.isDigit = true) ∧
    (Nat.toDigitsCore 10 fuel n []).foldl (fun n c => 10 * n + (c.toNat - 48)) 0 = n := by
  intro fuel
  induction fuel with
  | zero => intro n h; omega
  | succ fuel ih =>
    intro n h
    have hd := digitChar_isDigit (n % 10) (Nat.mod_lt n (by omega))
    simp only [Nat.toDigitsCore]
    split
    · rename_i h0
      refine ⟨by simp, ?_, ?_⟩
      · intro c hc
        simp only [List.mem_singleton] at hc
        rw [hc]; exact hd.1
      · simp only [List.foldl_cons, List.foldl_nil, hd.2]
        omega
    · rename_i h0
      have hlt : n / 10 < fuel := by omega
      obtain ⟨-, hall, hval⟩ := ih (n / 10) hlt
      rw [toDigitsCore_append]
      refine ⟨by simp, ?_, ?_⟩
      · intro c hc
        simp only [List.mem_append, List.mem_singleton] at hc
        rcases hc with hc | hc
        · exact hall c hc
        · rw [hc]; exact hd.1
      · simp only [List.foldl_append, List.foldl_cons, List.foldl_nil, hval, hd.2]
        omega

theorem takeWhile_digits : ∀ (ds : List Char) (c : Char) (rest : List Char),
    (∀ d ∈ ds, d.isDigit = true) → c.isDigit = false →
    (ds ++ c :: rest).takeWhile Char.isDigit = ds ∧
    (ds ++ c :: rest).dropWhile Char.isDigit = c :: rest := by
  intro ds
  induction ds with
  | nil =>
    intro c rest _ hc
    simp [List.takeWhile, List.dropWhile, hc]
  | cons d ds ih =>
    intro c rest hall hc
    have hd : d.isDigit = true := hall d (by simp)
    obtain ⟨h1, h2⟩ := ih c rest (fun x hx => hall x (by simp [hx])) hc
    simp [List.takeWhile, List.dropWhile, hd, h1, h2]

theorem toString_data (n : Nat) : (toString n).data = Nat.toDigits 10 n := rfl

theorem readNumber_toString (n : Nat) (c : Char) (rest : List Char)
    (hc : c.isDigit = false) :
    readNumber ((toString n).data ++ c :: rest) = some (n, c :: rest) := by
  obtain ⟨hne, hall, hval⟩ := toDigitsCore_value (n + 1) n (by omega)
  obtain ⟨h1, h2⟩ := takeWhile_digits _ c rest hall hc
  have hdata : (toString n).data = Nat.toDigitsCore 10 (n + 1) n [] := rfl
  simp only [readNumber, hdata, h1, h2, hval]
  rw [if_neg]
  simpa using hne

theorem render_data (t : ValueTuple) (rest : List Char) :
    t.render.data ++ rest = '(' :: '$' :: ((toString t.a).data ++ ',' :: ' ' :: '$' ::
      ((toString t.b).data ++ ',' :: ' ' :: '$' :: ((toString t.c).data ++ ')' :: rest))) := by
  simp [ValueTuple.render, String.data_append]

theorem readTuple_render (t : ValueTuple) (rest : List Char) :
    readTuple (t.render.data ++ rest) = some (t, rest) := by
  have h1 := fun r => readNumber_toString t.a ',' r (by decide)
  have h2 := fun r => readNumber_toString t.b ',' r (by decide)
  have h3 := fun r => readNumber_toString t.c ')' r (by decide)
  have e1 : ∀ X : List Char, expect "($".data ('(' :: '$' :: X) = some X :=
    fun X => expect_append "($".data X
  have e2 : ∀ X : List Char, expect ", $".data (',' :: ' ' :: '$' :: X) = some X :=
    fun X => expect_append ", $".data X
  have e3 : ∀ X : List Char, expect ")".data (')' :: X) = some X :=
    fun X => expect_append ")".data X
  unfold readTuple
  rw [render_data, e1, Option.some_bind, h1, Option.some_bind, e2, Option.some_bind, h2,
    Option.some_bind, e2, Option.some_bind, h3, Option.some_bind, e3, Option.some_bind]

theorem render_length (t : ValueTuple) : 1 ≤ t.render.data.length := by
  have h := congrArg List.length (render_data t [])
  simp only [List.append_nil, List.length_cons] at h
  omega

theorem stringsJoin_cons_cons (s t : String) (rest : List String) (sep : String) :
    document.stringsJoin (s :: t :: rest) sep = s ++ sep ++ document.stringsJoin (t :: rest) sep := rfl

theorem stringsJoin_length : ∀ (ts : List ValueTuple) (t : ValueTuple),
    ts.length + 1 ≤ (document.stringsJoin ((t :: ts).map ValueTuple.render) ",").data.length := by
  intro ts
  induction ts with
  | nil =>
    intro t
    exact render_length t
  | cons t2 ts ih =>
    intro t
    have h := ih t2
    simp only [List.map_cons] at h
    simp only [List.map_cons, stringsJoin_cons_cons, String.data_append, List.length_append,
      List.length_cons]
    have h1 := render_length t
    omega

theorem readTuples_render : ∀ (ts : List ValueTuple) (t : ValueTuple) (fuel : Nat),
    ts.length + 1 ≤ fuel →
    readTuples fuel ((document.stringsJoin ((t :: ts).map ValueTuple.render) ",").data ++ [';']) =
      some (t :: ts) := by
  intro ts
  induction ts with
  | nil =>
    intro t fuel hfuel
    obtain ⟨fuel, rfl⟩ : ∃ k, fuel = k + 1 := ⟨fuel - 1, by omega⟩
    simp only [List.map_cons, List.map_nil, document.stringsJoin, readTuples, readTuple_render, if_true]
  | cons t2 ts ih =>
    intro t fuel hfuel
    obtain ⟨fuel, rfl⟩ : ∃ k, fuel = k + 1 := ⟨fuel - 1, by omega⟩
    have hrest := ih t2 fuel (by simp only [List.length_cons] at hfuel; omega)
    have hcomma : ",".data = [','] := rfl
    simp only [List.map_cons] at hrest
    simp only [List.map_cons, stringsJoin_cons_cons, String.data_append, List.append_assoc,
      readTuples, readTuple_render, hcomma, List.cons_append, List.nil_append]
    rw [if_neg (by simp)]
    simp only [if_true, hrest, Option.map_some']

theorem insertQuery_data (valueParts : List String) :
    (document.insertQuery valueParts).data =
      grantsStatementHead.data ++ ((document.stringsJoin valueParts ",").data ++ [';']) := by
  simp only [document.insertQuery, String.data_append, List.append_assoc]
  rfl

/-- The store reads off the text of the statement the tuples it was assembled from. -/
theorem parseInsertGrants_insertQuery (t : ValueTuple) (ts : List ValueTuple) :
    parseInsertGrants (document.insertQuery ((t :: ts).map ValueTuple.render)) =
      some (t :: ts) := by
  unfold parseInsertGrants
  rw [insertQuery_data, expect_append]
  apply readTuples_render
  have h := stringsJoin_length ts t
  simp only [List.length_append, List.length_cons, List.length_nil]
  omega

theorem parseInsertGrants_empty : parseInsertGrants (document.insertQuery []) = none := by
  decide

/-! ## Documents -/

theorem insertDocument_ok {fault : Option Error} {tx tx1 : DB} {contents : Bytes} {id : Int}
    (h : insertDocument fault tx contents = .ok (id, tx1)) :
    fault = none ∧ id = tx.documentsSeq ∧ (∀ r ∈ tx.documents, r.id ≠ id) ∧
    tx1 = { tx with
      documents := tx.documents ++ [⟨tx.documentsSeq, contents⟩]
      documentsSeq := tx.documentsSeq + 1 } := by
  unfold insertDocument at h
  split at h
  · simp at h
  · split at h
    · simp at h
    · rename_i hid
      simp only [Except.ok.injEq, Prod.mk.injEq] at h
      refine ⟨rfl, h.1.symm, ?_, h.2.symm⟩
      intro r hr hn
      apply hid
      simp only [List.any_eq_true, decide_eq_true_eq]
      exact ⟨r, hr, by rw [hn, h.1]⟩

theorem insertGrants_ok {fault : Option Error} {tx tx1 : DB} {query : String}
    {args : List Arg} (h : insertGrants fault tx query args = .ok tx1) :
    fault = none ∧ ∃ valueParts rows table,
      parseInsertGrants query = some valueParts ∧
      bindTuples args valueParts = some rows ∧
      insertGrantRows tx.users_documents rows = .ok table ∧
      tx1 = { tx with users_documents := table } := by
  unfold insertGrants at h
  split at h
  · simp at h
  · split at h
    · simp at h
    · rename_i valueParts hparse
      split at h
      · simp at h
      · rename_i rows hrows
        split at h
        · simp at h
        · rename_i table htable
          simp only [Except.ok.injEq] at h
          exact ⟨rfl, valueParts, rows, table, hparse, hrows, htable, h.symm⟩

theorem render_grant (a b : Nat) :
    ValueTuple.render ⟨1, a, b⟩ = "($1, $" ++ toString a ++ ", $" ++ toString b ++ ")" := by
  have h : "($" ++ toString (1 : Nat) ++ ", $" = "($1, $" := by decide
  simp only [ValueTuple.render, h]

theorem valuePart_render (cnt : Nat) :
    document.valuePart cnt = (⟨1, cnt, cnt + 1⟩ : ValueTuple).render :=
  (render_grant cnt (cnt + 1)).symm

theorem grantLoop_ok (lib : Lib) (scan : Option Error) (documentKey : Bytes) :
    ∀ (keys : List Bytes) (cnt : Nat) (ent : Entropy) (args : List Arg)
      (valueParts : List String) (args1 : List Arg) (valueParts1 : List String),
      document.grantLoop lib scan documentKey keys cnt ent args valueParts =
        .ok (args1, valueParts1) →
      ∃ pairs : List (Bytes × Bytes),
        pairs.map Prod.fst = keys ∧
        (∀ p ∈ pairs, ∃ pub e e1, lib.parsePKCS1PublicKey p.1 = .ok pub ∧
          lib.encryptOAEP e pub documentKey = .ok (p.2, e1)) ∧
        args1 = args ++ grantArgs pairs ∧
        valueParts1 =
          valueParts ++ (grantTuples cnt pairs.length).map ValueTuple.render := by
  intro keys
  induction keys with
  | nil =>
    intro cnt ent args valueParts args1 valueParts1 h
    simp only [document.grantLoop, Except.ok.injEq, Prod.mk.injEq] at h
    exact ⟨[], rfl, by simp, by simp [grantArgs, h.1], by simp [grantTuples, h.2]⟩
  | cons key rest ih =>
    intro cnt ent args valueParts args1 valueParts1 h
    unfold document.grantLoop at h
    split at h
    · simp at h
    split at h
    · simp at h
    rename_i publicKey hparse
    split at h
    · simp at h
    rename_i wrapped ent1 hwrap
    obtain ⟨pairs, hfst, hall, hargs, hparts⟩ := ih _ _ _ _ _ _ h
    refine ⟨(key, wrapped) :: pairs, by simp [hfst], ?_, ?_, ?_⟩
    · intro p hp
      simp only [List.mem_cons] at hp
      rcases hp with hp | hp
      · subst hp
        exact ⟨publicKey, ent, ent1, hparse, hwrap⟩
      · exact hall p hp
    · simp [hargs, grantArgs]
    · simp [hparts, grantTuples, valuePart_render]

theorem get?_after_front (a b : Arg) (rest : List Arg) :
    ∀ (front : List Arg) (x : Arg),
      (x :: front ++ a :: b :: rest).get? (front.length + 1) = some a ∧
      (x :: front ++ a :: b :: rest).get? (front.length + 2) = some b := by
  intro front
  induction front with
  | nil => intro x; exact ⟨rfl, rfl⟩
  | cons y front ih =>
    intro x
    exact ih y

theorem bindTuples_grants (d : Int) :
    ∀ (pairs : List (Bytes × Bytes)) (front : List Arg),
      bindTuples (.int d :: front ++ grantArgs pairs)
          (grantTuples (front.length + 2) pairs.length) =
        some (pairs.map (grantRow d)) := by
  intro pairs
  induction pairs with
  | nil => intro front; simp [grantTuples, bindTuples]
  | cons p rest ih =>
    intro front
    obtain ⟨k, w⟩ := p
    have hrest := ih (front ++ [.bytes k, .bytes w])
    have hargs : Arg.int d :: (front ++ [Arg.bytes k, Arg.bytes w]) ++ grantArgs rest =
        Arg.int d :: front ++ grantArgs ((k, w) :: rest) := by
      simp [grantArgs]
    rw [hargs] at hrest
    have hlen : (front ++ [Arg.bytes k, Arg.bytes w]).length + 2 = front.length + 2 + 2 := by
      simp
    rw [hlen] at hrest
    have h1 : placeholder (Arg.int d :: front ++ grantArgs ((k, w) :: rest)) 1 =
        some (.int d) := by
      simp [placeholder]
    have h2 : placeholder (Arg.int d :: front ++ grantArgs ((k, w) :: rest))
        (front.length + 2) = some (.bytes k) := by
      simp only [placeholder, grantArgs]
      rw [if_neg (by omega)]
      exact (get?_after_front _ _ _ front _).1
    have h3 : placeholder (Arg.int d :: front ++ grantArgs ((k, w) :: rest))
        (front.length + 2 + 1) = some (.bytes w) := by
      simp only [placeholder, grantArgs]
      rw [if_neg (by omega)]
      exact (get?_after_front _ _ _ front _).2
    simp only [List.length_cons, grantTuples, bindTuples, bindTuple, h1, h2, h3, hrest,
      List.map_cons, grantRow]

theorem insertGrantRows_ok :
    ∀ (rows table result : List GrantRow), insertGrantRows table rows = .ok result →
      result = table ++ rows ∧
      ∀ g ∈ result, ∀ r ∈ rows, g.document_id = r.document_id → g.public_key = r.public_key →
        g.document_key = r.document_key := by
  intro rows
  induction rows with
  | nil =>
    intro table result h
    simp only [insertGrantRows, Except.ok.injEq] at h
    simp [h]
  | cons r0 rest ih =>
    intro table result h
    unfold insertGrantRows at h
    split at h
    · simp at h
    rename_i hfresh
    obtain ⟨hres, huniq⟩ := ih _ _ h
    refine ⟨by simp [hres], ?_⟩
    intro g hg r hr hd hk
    simp only [List.mem_cons] at hr
    rcases hr with hr | hr
    · subst hr
      rw [hres] at hg
      simp only [List.mem_append, List.mem_singleton] at hg
      rcases hg with (hg | hg) | hg
      · exfalso
        apply hfresh
        simp only [List.any_eq_true, decide_eq_true_eq]
        exact ⟨g, hg, hd, hk⟩
      · rw [hg]
      · have hr0 : r ∈ result := by rw [hres]; simp
        exact (huniq r hr0 g hg hd.symm hk.symm).symm
    · exact huniq g hg r hr hd hk

/-- What `New` returns with before the statement of the grants is assembled is an error. -/
theorem New_statement_error {lib : Lib} {f : document.Faults} {db : DB} {ent : Entropy}
    {contents : Bytes} {r : Res Int}
    (h : document.New.statement lib f db ent contents = .error r) :
    ∃ e, r = .ret 0 (some e) := by
  unfold document.New.statement at h
  split at h
  · rename_i m ent1 hrand
    exfalso
    unfold RandomKey at hrand
    split at hrand
    · simp at hrand
    · split at hrand <;> simp at hrand
  · simp only [Except.error.injEq] at h
    exact ⟨_, h.symm⟩
  rename_i documentKey documentBlock ent1 hrand
  obtain ⟨-, -, hblk, -⟩ := RandomKey_ok hrand
  subst hblk
  rw [EncryptWithBlock_aes] at h
  simp only at h
  split at h
  · simp only [Except.error.injEq] at h
    exact ⟨_, h.symm⟩
  split at h
  · simp only [Except.error.injEq] at h
    exact ⟨_, h.symm⟩
  · simp at h

/-- What `New` has assembled when it gets to the transaction. -/
theorem New_statement_ok {lib : Lib} {f : document.Faults} {db : DB} {ent : Entropy}
    {contents enc : Bytes} {query : String} {args : List Arg}
    (h : document.New.statement lib f db ent contents = .ok (enc, query, args)) :
    (ent.take 32).length = 32 ∧
    enc = makeBytes nonceSize ++ lib.gcmSeal (ent.take 32) (makeBytes nonceSize) contents ∧
    selectPublicKeys f.query db = .ok (db.users.map (fun r => r.public_key)) ∧
    ∃ pairs : List (Bytes × Bytes),
      pairs.map Prod.fst =
        document.deliveredRows f.next (db.users.map (fun r => r.public_key)) ∧
      (∀ p ∈ pairs, ∃ pub e e1, lib.parsePKCS1PublicKey p.1 = .ok pub ∧
        lib.encryptOAEP e pub (ent.take 32) = .ok (p.2, e1)) ∧
      args = .null :: grantArgs pairs ∧
      query = document.insertQuery ((grantTuples 2 pairs.length).map ValueTuple.render) := by
  unfold document.New.statement at h
  split at h
  · simp at h
  · simp at h
  rename_i documentKey documentBlock ent1 hrand
  obtain ⟨hr1, hr2, hr3, hr4⟩ := RandomKey_ok hrand
  subst hr3
  rw [EncryptWithBlock_aes] at h
  simp only at h
  split at h
  · simp at h
  rename_i rows hrows
  split at h
  · simp at h
  rename_i args1 valueParts hloop
  simp only [Except.ok.injEq, Prod.mk.injEq] at h
  obtain ⟨henc, hquery, hargs⟩ := h
  have hq : rows = db.users.map (fun r => r.public_key) := by
    unfold selectPublicKeys at hrows
    split at hrows
    · simp at hrows
    · simp only [Except.ok.injEq] at hrows
      exact hrows.symm
  obtain ⟨pairs, hfst, hall, hargs1, hparts⟩ := grantLoop_ok lib _ _ _ _ _ _ _ _ _ hloop
  subst hr1 hq
  refine ⟨hr2, henc.symm, hrows, pairs, hfst, hall, ?_, ?_⟩
  · rw [← hargs, hargs1]; rfl
  · rw [← hquery, hparts]; rfl

/-- What a call of `New` that returns a nil error has done. -/
theorem New_ok {lib : Lib} {f : document.Faults} {db db2 : DB} {ent : Entropy}
    {contents : Bytes} {d : Int}
    (h : document.New lib f db ent contents = (.ret d none, db2)) :
    (f.begin ≠ none ∧ d = 0 ∧ db2 = db) ∨
    (f.begin = none ∧ (ent.take 32).length = 32 ∧ d = db.documentsSeq ∧
      (∀ r ∈ db.documents, r.id ≠ d) ∧
      ∃ (pairs : List (Bytes × Bytes)) (table : List GrantRow) (query : String)
        (args : List Arg),
        document.New.statement lib f db ent contents =
          .ok (makeBytes nonceSize ++
            lib.gcmSeal (ent.take 32) (makeBytes nonceSize) contents, query, args) ∧
        args = .null :: grantArgs pairs ∧
        pairs ≠ [] ∧
        pairs.map Prod.fst =
          document.deliveredRows f.next (db.users.map (fun r => r.public_key)) ∧
        (∀ p ∈ pairs, ∃ pub e e1, lib.parsePKCS1PublicKey p.1 = .ok pub ∧
          lib.encryptOAEP e pub (ent.take 32) = .ok (p.2, e1)) ∧
        insertGrantRows db.users_documents (pairs.map (grantRow d)) = .ok table ∧
        db2 = { db with
          documents := db.documents ++
            [⟨d, makeBytes nonceSize ++
              lib.gcmSeal (ent.take 32) (makeBytes nonceSize) contents⟩]
          documentsSeq := db.documentsSeq + 1
          users_documents := table }) := by
  unfold document.New at h
  split at h
  · rename_i r hstmt
    obtain ⟨e, he⟩ := New_statement_error hstmt
    subst he
    simp at h
  rename_i enc query args hstmt
  obtain ⟨hlen, henc, -, pairs, hfst, hall, hargs, hquery⟩ := New_statement_ok hstmt
  split at h
  · rename_i e hbegin
    left
    simp only [Prod.mk.injEq, Res.ret.injEq, and_true] at h
    refine ⟨?_, h.1.symm, h.2.symm⟩
    intro hnone
    simp [beginTx, hnone] at hbegin
  rename_i tx hbegin
  split at h
  · simp at h
  rename_i documentID tx1 hdoc
  simp only at h
  split at h
  · simp at h
  rename_i tx2 hgrants
  split at h
  · simp at h
  rename_i db3 hcommit
  right
  simp only [Prod.mk.injEq, Res.ret.injEq, and_true] at h
  obtain ⟨hd, hdb⟩ := h
  subst hd hdb
  have hb : f.begin = none ∧ tx = db := by
    unfold beginTx at hbegin
    split at hbegin
    · simp at hbegin
    · rename_i hf
      simp only [Except.ok.injEq] at hbegin
      exact ⟨hf, hbegin.symm⟩
  obtain ⟨hb1, hb2⟩ := hb
  subst hb2
  have hc : db3 = tx2 := by
    unfold commitTx at hcommit
    split at hcommit
    · simp at hcommit
    · simp only [Except.ok.injEq] at hcommit
      exact hcommit.symm
  obtain ⟨-, hi2, hi3, hi4⟩ := insertDocument_ok hdoc
  obtain ⟨-, tuples, rows, table, hparse, hbind, htable, hg5⟩ := insertGrants_ok hgrants
  have hne : pairs ≠ [] := by
    intro hnil
    rw [hquery, hnil] at hparse
    simp only [List.length_nil, grantTuples, List.map_nil, parseInsertGrants_empty] at hparse
    simp at hparse
  have htuples : tuples = grantTuples 2 pairs.length := by
    cases hp : pairs with
    | nil => exact absurd hp hne
    | cons p rest =>
      rw [hquery, hp] at hparse
      simp only [List.length_cons, grantTuples] at hparse ⊢
      rw [parseInsertGrants_insertQuery] at hparse
      simp only [Option.some.injEq] at hparse
      exact hparse.symm
  have hrows : rows = pairs.map (grantRow documentID) := by
    have hb := bindTuples_grants documentID pairs []
    rw [htuples, hargs] at hbind
    simp only [List.nil_append, List.cons_append, List.set_cons_zero, List.length_nil,
      Nat.zero_add] at hbind hb
    rw [hb] at hbind
    simp only [Option.some.injEq] at hbind
    exact hbind.symm
  subst henc
  refine ⟨hb1, hlen, hi2, hi3, pairs, table, query, args, hstmt, hargs, hne, hfst, hall, ?_,
    ?_⟩
  · rw [hi4, hrows] at htable; exact htable
  · rw [hc, hg5, hi4, hi2]

theorem sealed_ne_plaintext (lib : Lib) (hseal : lib.SealAddsTag) (key contents : Bytes) :
    (makeBytes nonceSize ++ lib.gcmSeal key (makeBytes nonceSize) contents).length =
        contents.length + 12 + 16 ∧
      makeBytes nonceSize ++ lib.gcmSeal key (makeBytes nonceSize) contents ≠ contents := by
  have hlen : (makeBytes nonceSize ++ lib.gcmSeal key (makeBytes nonceSize) contents).length =
      contents.length + 12 + 16 := by
    have hnonce : (makeBytes nonceSize).length = nonceSize := by simp [makeBytes]
    rw [List.length_append, hseal key _ contents hnonce, hnonce]
    simp only [nonceSize, tagSize]
    omega
  refine ⟨hlen, ?_⟩
  intro heq
  rw [heq] at hlen
  omega

/-- C6. With no user in the store `New` does not succeed: the statement it builds for the
grants has no tuple after `values`, the store refuses it, the transaction is rolled back
and `New` returns an error, for every library, every store without users, every state of
the random source and every contents, the connection not failing; on the empty store the
error is the syntax error of the store. -/
theorem New_without_users_fails (lib : Lib) (db : DB) (ent : Entropy) (contents : Bytes) :
    (∃ e, document.New lib document.noFaults { db with users := [] } ent contents =
        (.ret 0 (some e), { db with users := [] })) ∧
      document.New lib document.noFaults emptyDB sampleEntropy contents =
        (.ret 0 (some "pq: syntax error at or near \";\""), emptyDB) ∧
      document.insertQuery [] =
        "insert into users_documents(document_id, public_key, document_key) values ;" := by
  refine ⟨?_, rfl, by decide⟩
  unfold document.New
  split
  · rename_i r hstmt
    obtain ⟨e, he⟩ := New_statement_error hstmt
    exact ⟨e, by rw [he]⟩
  rename_i enc query args hstmt
  obtain ⟨-, -, -, pairs, hfst, -, -, hquery⟩ := New_statement_ok hstmt
  have hnil : pairs = [] := by
    cases pairs with
    | nil => rfl
    | cons p rest =>
      cases hn : document.noFaults.next <;>
        simp [document.deliveredRows, document.noFaults] at hfst
  subst hnil
  simp only [List.length_nil, grantTuples, List.map_nil] at hquery
  subst hquery
  simp only [document.noFaults, beginTx]
  split
  · exact ⟨_, rfl⟩
  rename_i documentID tx1 hdoc
  simp only [insertGrants, parseInsertGrants_empty]
  exact ⟨_, rfl⟩

/-- C7. When beginning the transaction fails, `New` returns the id 0 with a nil error and
stores nothing: with no user in the store for every library, and with a registered user,
for whom the same call without the failure stores the document. -/
theorem New_begin_failure_returns_nil_error (lib : Lib) (e : Error) (contents : Bytes) :
    document.New lib ⟨none, none, some e, none, none, none, none⟩ emptyDB sampleEntropy
        contents = (.ret 0 none, emptyDB) ∧
      document.New toyLib ⟨none, none, some e, none, none, none, none⟩ sampleDB1 sampleEntropy
        sampleContents = (.ret 0 none, sampleDB1) ∧
      document.New toyLib document.noFaults sampleDB1 sampleEntropy sampleContents =
        (.ret 1 none, sampleDB2) ∧
      sampleDB2.documents.length = 1 :=
  ⟨rfl, rfl, rfl, rfl⟩

/-- C10. Whenever `New` returns a nil error, every row of `documents` it has added has the
returned id and holds the output of `EncryptWithBlock` under the document key: twelve bytes
of nonce followed by the sealed contents, `len(contents) + 12 + 16` bytes, hence not the
contents; and such a row has been added unless beginning the transaction failed. GCM `Seal`
is assumed to add its tag of 16 bytes to the length of the plaintext. -/
theorem documents_not_stored_in_clear (lib : Lib) (hseal : lib.SealAddsTag)
    (f : document.Faults) (db db2 : DB) (ent : Entropy) (contents : Bytes) (d : Int)
    (hnew : document.New lib f db ent contents = (.ret d none, db2)) :
    (∀ row ∈ db2.documents, row ∉ db.documents →
      row.id = d ∧
      RandomKey ent = (.ret (ent.take 32, some ⟨ent.take 32, 16⟩) none, ent.drop 32) ∧
      EncryptWithBlock lib (some ⟨ent.take 32, 16⟩) contents = .ret row.contents none ∧
      row.contents =
        makeBytes nonceSize ++ lib.gcmSeal (ent.take 32) (makeBytes nonceSize) contents ∧
      row.contents.length = contents.length + 12 + 16 ∧
      row.contents ≠ contents) ∧
    (f.begin = none → ∃ row ∈ db2.documents, row ∉ db.documents ∧ row.id = d) := by
  rcases New_ok hnew with ⟨hb, -, hdb⟩ |
    ⟨hb, hlen, -, hfresh, pairs, table, query, args, -, -, -, -, -, -, hdb⟩
  · subst hdb
    exact ⟨fun row hrow hnot => absurd hrow hnot, fun h => absurd h hb⟩
  · have hs := sealed_ne_plaintext lib hseal (ent.take 32) contents
    have hle : 32 ≤ ent.length := by
      simp only [List.length_take] at hlen; omega
    have hrand : RandomKey ent =
        (.ret (ent.take 32, some ⟨ent.take 32, 16⟩) none, ent.drop 32) := by
      simp [RandomKey, readFull, hle, aesNewCipher_32 hlen]
    subst hdb
    refine ⟨?_, ?_⟩
    · intro row hrow hnot
      simp only [List.mem_append, List.mem_singleton] at hrow
      rcases hrow with hrow | hrow
      · exact absurd hrow hnot
      · subst hrow
        exact ⟨rfl, hrand, EncryptWithBlock_aes lib _ contents, rfl, hs.1, hs.2⟩
    · intro _
      refine ⟨⟨d, makeBytes nonceSize ++
        lib.gcmSeal (ent.take 32) (makeBytes nonceSize) contents⟩, ?_, ?_, rfl⟩
      · simp
      · intro hmem
        exact hfresh _ hmem rfl

theorem documents_not_stored_in_clear_witness :
    toyLib.SealAddsTag ∧
    document.New toyLib document.noFaults sampleDB1 sampleEntropy sampleContents =
      (.ret 1 none, sampleDB2) ∧
    (∀ row ∈ sampleDB2.documents, row ∉ sampleDB1.documents →
      row.id = 1 ∧
      RandomKey sampleEntropy =
        (.ret (sampleEntropy.take 32, some ⟨sampleEntropy.take 32, 16⟩) none,
          sampleEntropy.drop 32) ∧
      EncryptWithBlock toyLib (some ⟨sampleEntropy.take 32, 16⟩) sampleContents =
        .ret row.contents none ∧
      row.contents =
        makeBytes nonceSize ++
          toyLib.gcmSeal (sampleEntropy.take 32) (makeBytes nonceSize) sampleContents ∧
      row.contents.length = sampleContents.length + 12 + 16 ∧
      row.contents ≠ sampleContents) ∧
    (document.noFaults.begin = none →
      ∃ row ∈ sampleDB2.documents, row ∉ sampleDB1.documents ∧ row.id = 1) :=
  ⟨toyLib_sealAddsTag, rfl,
    documents_not_stored_in_clear toyLib toyLib_sealAddsTag document.noFaults sampleDB1
      sampleDB2 sampleEntropy sampleContents 1 rfl⟩

theorem selectGrant_granted (db : DB) (documents : List DocumentRow) (d : Int)
    (contents key wrapped : Bytes)
    (hdocs : db.documents = documents ++ [⟨d, contents⟩])
    (hfresh : ∀ r ∈ documents, r.id ≠ d)
    (hmem : (⟨d, key, wrapped⟩ : GrantRow) ∈ db.users_documents)
    (huniq : ∀ g ∈ db.users_documents, g.document_id = d → g.public_key = key →
      g.document_key = wrapped) :
    selectGrant none db key d = .ok (wrapped, contents) := by
  unfold selectGrant
  simp only
  split
  · rename_i hnone
    exfalso
    rw [List.find?_eq_none] at hnone
    apply hnone (⟨d, key, wrapped⟩, ⟨d, contents⟩)
    · simp only [List.mem_flatMap, List.mem_map, List.mem_filter, decide_eq_true_eq]
      exact ⟨_, hmem, _, ⟨by simp [hdocs], rfl⟩, rfl⟩
    · simp
  · rename_i q hq
    have hp := List.find?_some hq
    have hin := List.mem_of_find?_eq_some hq
    simp only [Bool.decide_and, Bool.and_eq_true, decide_eq_true_eq] at hp
    simp only [List.mem_flatMap, List.mem_map, List.mem_filter, decide_eq_true_eq] at hin
    obtain ⟨ud, hud, doc, ⟨hdoc, hjoin⟩, hpair⟩ := hin
    subst hpair
    simp only at hp
    have hkey := huniq ud hud (hjoin.trans hp.2) hp.1
    have hdoc1 : doc = ⟨d, contents⟩ := by
      rw [hdocs] at hdoc
      simp only [List.mem_append, List.mem_singleton] at hdoc
      rcases hdoc with hdoc | hdoc
      · exact absurd hp.2 (hfresh doc hdoc)
      · exact hdoc
    simp [hkey, hdoc1]

theorem selectLogin_last (db : DB) (users : List UserRow) (row : UserRow) (username : Bytes)
    (husers : db.users = users ++ [row]) (hname : row.name = username)
    (hfresh : ∀ r ∈ users, r.name ≠ username) :
    selectLogin none db username = .ok (row.password, row.public_key, row.private_key) := by
  simp only [selectLogin, husers]
  rw [find_registered users row username hname hfresh]

/-- The round trip of a document: if `CreateUser(username, password)` succeeds, `New(contents)`
on the resulting store then returns the id `d` without error, the transaction having begun
and the iteration over the public keys having met no error, and `Login(username, password)`
then returns the suite `s` without error, then `Get(s, d)` returns exactly `contents`
without error, the store answering the queries of `Login` and `Get`. It is assumed that GCM
`Open` inverts `Seal` and that a generated key survives marshalling and decrypts what was
encrypted for its public key. -/
theorem document_round_trip (lib : Lib) (hgcm : lib.OpenInvertsSeal)
    (hkeys : lib.GeneratedKeysWork) (fault : Option Error) (f : document.Faults)
    (db db1 db2 : DB) (ent ent' : Entropy) (username password contents : Bytes)
    (uid d : Int) (code : String) (s : user.CryptoSuite)
    (hcreate :
      user.CreateUser lib fault db ent username password = (.ret (uid, code) none, db1))
    (hbegin : f.begin = none) (hnext : f.next = none)
    (hnew : document.New lib f db1 ent' contents = (.ret d none, db2))
    (hlogin : user.Login lib none db2 username password = .ret s none) :
    document.Get lib none db2 s d = .ret contents none := by
  obtain ⟨hashedPassword, ent1, pkey, ent2, -, hgen, hkek, -, -, -, hfresh, hdb1⟩ :=
    CreateUser_ok hcreate
  rcases New_ok hnew with ⟨hb, -, -⟩ | ⟨-, hlen, -, hnodoc, pairs, table, query, args,
    -, -, -, hfst, hall, hrows, hdb2⟩
  · exact absurd hbegin hb
  obtain ⟨hpub, -, hunwrap⟩ := hkeys ent1 ent2 4096 pkey hgen
  -- the suite of the login
  have husers : db2.users = db.users ++
      [registeredRow lib db.usersSeq username password hashedPassword pkey (ent2.take 32)] := by
    rw [hdb2, hdb1]
  have hsel := selectLogin_last db2 db.users _ username husers rfl hfresh
  have hs := Login_registered lib hgcm hkeys db2 username password hashedPassword pkey ent1 ent2
    4096 hgen hkek hsel
  rw [hlogin] at hs
  have hsuite : s = ⟨some pkey.pub, some pkey⟩ := by
    split at hs
    · simp at hs
    · simp only [Res.ret.injEq, and_true] at hs
      exact hs
  -- the grant written for the user
  have hkeymem : lib.marshalPKCS1PublicKey pkey.pub ∈ pairs.map Prod.fst := by
    rw [hfst, hnext, hdb1]
    simp [document.deliveredRows, registeredRow]
  obtain ⟨p, hp, hp1⟩ := List.mem_map.mp hkeymem
  obtain ⟨pub, e, e1, hparse, hwrap⟩ := hall p hp
  rw [hp1, hpub] at hparse
  simp only [Except.ok.injEq] at hparse
  subst hparse
  have hdecrypt := hunwrap e e1 _ _ hwrap
  obtain ⟨htable, huniq⟩ := insertGrantRows_ok _ _ _ hrows
  have hrowmem : (⟨d, lib.marshalPKCS1PublicKey pkey.pub, p.2⟩ : GrantRow) ∈
      pairs.map (grantRow d) := by
    apply List.mem_map.mpr
    exact ⟨p, hp, by simp [grantRow, hp1]⟩
  have hgrant := selectGrant_granted db2 db1.documents d
    (makeBytes nonceSize ++ lib.gcmSeal (ent'.take 32) (makeBytes nonceSize) contents)
    (lib.marshalPKCS1PublicKey pkey.pub) p.2 (by rw [hdb2]) hnodoc
    (by rw [hdb2, htable]; simp [hrowmem])
    (by
      intro g hg hgd hgk
      rw [hdb2] at hg
      exact huniq g hg _ hrowmem hgd hgk)
  -- the call of Get
  subst hsuite
  unfold document.Get
  simp only [hgrant, hdecrypt, AESDecrypt_sealed lib hgcm _ contents hlen]

theorem document_round_trip_witness :
    toyLib.OpenInvertsSeal ∧ toyLib.GeneratedKeysWork ∧
    user.CreateUser toyLib none emptyDB sampleEntropy sampleUsername samplePassword =
      (.ret (1, "02030405060708090a0b0c0d0e0f101112131415161718191a1b1c1d1e1f2021") none,
        sampleDB1) ∧
    document.noFaults.begin = none ∧ document.noFaults.next = none ∧
    document.New toyLib document.noFaults sampleDB1 sampleEntropy sampleContents =
      (.ret 1 none, sampleDB2) ∧
    user.Login toyLib none sampleDB2 sampleUsername samplePassword =
      .ret ⟨some ⟨1, 3⟩, some ⟨⟨1, 3⟩, 1, []⟩⟩ none ∧
    document.Get toyLib none sampleDB2 ⟨some ⟨1, 3⟩, some ⟨⟨1, 3⟩, 1, []⟩⟩ 1 =
      .ret sampleContents none :=
  ⟨toyLib_openInvertsSeal, toyLib_generatedKeysWork, rfl, rfl, rfl, rfl, rfl,
    document_round_trip toyLib toyLib_openInvertsSeal toyLib_generatedKeysWork none
      document.noFaults emptyDB sampleDB1 sampleDB2 sampleEntropy sampleEntropy sampleUsername
      samplePassword sampleContents 1 1 _ _ rfl rfl rfl rfl rfl⟩

/-- C2. The round trip fails on two inputs on which `New` returns a nil error without having
granted the document to the registered user, with a library for which GCM `Open` inverts
`Seal` and generated keys work. First: `alice` registers, beginning the transaction of
`New` fails, `New` returns `(0, nil)`, `alice` logs in, and `Get` with her suite and the
returned id finds no row. Second: `bob` registers next to `alice`, the iteration over the
public keys meets an error after the first row, which `New` takes for the end of the rows,
`New` returns `(1, nil)` having stored the document with the grant of `alice` alone, `bob`
logs in, and `Get` with his suite and the returned id finds no row; without the error of
the iteration `Get` returns the contents. -/
theorem document_round_trip_fails_after_silent_failure :
    toyLib.OpenInvertsSeal ∧ toyLib.GeneratedKeysWork ∧
    user.CreateUser toyLib none emptyDB sampleEntropy sampleUsername samplePassword =
      (.ret (1, "02030405060708090a0b0c0d0e0f101112131415161718191a1b1c1d1e1f2021") none,
        sampleDB1) ∧
    document.New toyLib ⟨none, none, some "driver: bad connection", none, none, none, none⟩
      sampleDB1 sampleEntropy sampleContents = (.ret 0 none, sampleDB1) ∧
    user.Login toyLib none sampleDB1 sampleUsername samplePassword =
      .ret ⟨some ⟨1, 3⟩, some ⟨⟨1, 3⟩, 1, []⟩⟩ none ∧
    document.Get toyLib none sampleDB1 ⟨some ⟨1, 3⟩, some ⟨⟨1, 3⟩, 1, []⟩⟩ 0 =
      .ret [] (some "Couldn't query document contents, sql: no rows in result set") ∧
    user.CreateUser toyLib none sampleDB1 sampleEntropy2 sampleUsername2 samplePassword2 =
      (.ret (2, "3435363738393a3b3c3d3e3f404142434445464748494a4b4c4d4e4f50515253") none,
        sampleDB3) ∧
    document.New toyLib ⟨none, none, none, none, none, none, some 1⟩ sampleDB3 sampleEntropy
      sampleContents = (.ret 1 none, sampleDB4) ∧
    sampleDB4.users_documents.map (fun g => (g.document_id, g.public_key)) = [(1, [1])] ∧
    user.Login toyLib none sampleDB4 sampleUsername2 samplePassword2 =
      .ret ⟨some ⟨51, 3⟩, some ⟨⟨51, 3⟩, 51, []⟩⟩ none ∧
    document.Get toyLib none sampleDB4 ⟨some ⟨51, 3⟩, some ⟨⟨51, 3⟩, 51, []⟩⟩ 1 =
      .ret [] (some "Couldn't query document contents, sql: no rows in result set") ∧
    document.New toyLib document.noFaults sampleDB3 sampleEntropy sampleContents =
      (.ret 1 none, sampleDB5) ∧
    document.Get toyLib none sampleDB5 ⟨some ⟨51, 3⟩, some ⟨⟨51, 3⟩, 51, []⟩⟩ 1 =
      .ret sampleContents none :=
  ⟨toyLib_openInvertsSeal, toyLib_generatedKeysWork, rfl, rfl, rfl, rfl, rfl, rfl, rfl, rfl,
    rfl, rfl, rfl⟩

/-! ## The statement of the grants -/

end EncryptionAtRest
